import Mathlib

/-!
Verification of the axcss compilation engine (`src/processors/componentProcessor.js`)
against its natural-language specification.

The JavaScript source is shallowly embedded: strings are `List Char`, the scanning
loops driven by JavaScript regular expressions are translated into explicit
character-level scanners with the same greedy/backtracking behaviour, JavaScript
objects and `Map`s become insertion-ordered association lists with
update-in-place semantics, `logger.warning`/`logger.error` calls are collected in
an explicit log list, and thrown exceptions become `Except.error`.  Node's
`fs.readFile` is modelled by lookup in an explicit file-system association list,
and Node's `path.dirname`/`path.resolve` (external collaborators) by simple
POSIX-style string operations sufficient for relative, already-normalised paths.
-/

set_option maxRecDepth 20000

namespace Axcss

/-- Strings of the embedded program: JavaScript strings as lists of characters. -/
abbrev Str := List Char

/-- The opening-brace character (written by code point to keep sources clean). -/
def lbrace : Char := Char.ofNat 123

/-- The closing-brace character. -/
def rbrace : Char := Char.ofNat 125

/-- Single-quote character. -/
def quoteS : Char := Char.ofNat 39

/-- Double-quote character. -/
def quoteD : Char := Char.ofNat 34

/-- Backtick character (used by JavaScript replacement-pattern processing). -/
def btick : Char := Char.ofNat 96

/-- JavaScript `\s` on the ASCII range (space, tab, newline, carriage return,
vertical tab, form feed).  The sources are ASCII, so this models `/\s/`. -/
def isWs (c : Char) : Bool :=
  c = ' ' || c = '\t' || c = '\n' || c = '\r' || c = Char.ofNat 11 || c = Char.ofNat 12

/-- Character class `[a-zA-Z0-9_\-]` used by the identifier regexes. -/
def isIdentChar (c : Char) : Bool :=
  ('a' ≤ c && c ≤ 'z') || ('A' ≤ c && c ≤ 'Z') || ('0' ≤ c && c ≤ '9') || c = '_' || c = '-'

/-- Character class `[a-zA-Z]`. -/
def isAlphaChar (c : Char) : Bool :=
  ('a' ≤ c && c ≤ 'z') || ('A' ≤ c && c ≤ 'Z')

/-- JavaScript `\w` (word character) used by the `\b` boundary in `/component\b/`. -/
def isWordChar (c : Char) : Bool :=
  ('a' ≤ c && c ≤ 'z') || ('A' ≤ c && c ≤ 'Z') || ('0' ≤ c && c ≤ '9') || c = '_'

/-- Test whether `p` is a prefix of `l` (plain boolean prefix check). -/
def strStarts : Str → Str → Bool
  | [], _ => true
  | _ :: _, [] => false
  | p :: ps, c :: cs => p = c && strStarts ps cs

/-- JavaScript `String.prototype.trim` restricted to ASCII whitespace. -/
def jsTrim (l : Str) : Str :=
  ((l.dropWhile isWs).reverse.dropWhile isWs).reverse

/-- Index of the first occurrence of a character (JavaScript `indexOf` on a suffix). -/
def idxOf (c : Char) : Str → Option Nat
  | [] => none
  | d :: rest => if d = c then some 0 else (idxOf c rest).map (· + 1)

/-- JavaScript `content.indexOf(c, i)` as an absolute index. -/
def idxOfFrom (content : Str) (c : Char) (i : Nat) : Option Nat :=
  (idxOf c (content.drop i)).map (· + i)

/-- Split at the first occurrence of `c`: returns the part before it and the
suffix starting at `c` itself. -/
def splitAtChar (c : Char) (l : Str) : Option (Str × Str) :=
  (idxOf c l).map fun i => (l.take i, l.drop i)

/-- Index of the first occurrence of `needle` in `hay` (JavaScript
`String.prototype.indexOf`; the empty needle is found at index 0). -/
def idxOfSub (hay needle : Str) : Option Nat :=
  if strStarts needle hay then some 0
  else
    match hay with
    | [] => none
    | _ :: rest => (idxOfSub rest needle).map (· + 1)

/-- Boolean substring test. -/
def containsSub (hay needle : Str) : Bool :=
  (idxOfSub hay needle).isSome

/-- JavaScript `String.prototype.split` on a single separator character:
returns all segments, including empty ones; splitting the empty string
yields one empty segment. -/
def splitOnChar (c : Char) : Str → List Str
  | [] => [[]]
  | d :: rest =>
    if d = c then [] :: splitOnChar c rest
    else
      match splitOnChar c rest with
      | s :: ss => (d :: s) :: ss
      | [] => [[d]]

/-- JavaScript `Array.prototype.join` with a separator string. -/
def joinWith (sep : Str) : List Str → Str
  | [] => []
  | [x] => x
  | x :: y :: rest => x ++ sep ++ joinWith sep (y :: rest)

/-- Lowercases a string (JavaScript `toLowerCase` on ASCII input). -/
def toLowerStr (l : Str) : Str := l.map Char.toLower

/-- Strips one leading and one trailing quote character, the effect of the
JavaScript replace `/^['"]|['"]$/g` with the empty string. -/
def stripQuotes (l : Str) : Str :=
  let l1 := match l with
    | c :: rest => if c = quoteS || c = quoteD then rest else l
    | [] => []
  match l1.getLast? with
  | some c => if c = quoteS || c = quoteD then l1.dropLast else l1
  | none => l1

/-- JavaScript `GetSubstitution`: expansion of `$$`, `$&`, `` $` `` and `$'`
in a replacement string (`matched` is the matched text, `before`/`after` the
surrounding text of the subject string).  The patterns for capture groups do
not apply: every replacement in the source is either a plain string pattern or
a regex without capture-group references in the replacement. -/
def getSubst : Str → Str → Str → Str → Str
  | [], _, _, _ => []
  | c :: rest, m, b, a =>
    if c = '$' then
      match rest with
      | d :: rest2 =>
        if d = '$' then '$' :: getSubst rest2 m b a
        else if d = '&' then m ++ getSubst rest2 m b a
        else if d = btick then b ++ getSubst rest2 m b a
        else if d = quoteS then a ++ getSubst rest2 m b a
        else '$' :: d :: getSubst rest2 m b a
      | [] => ['$']
    else c :: getSubst rest m b a

/-- JavaScript `s.replace(target, repl)` for a plain string pattern: replaces
the first occurrence, applying `GetSubstitution` to the replacement. -/
def replaceFirstSubst (s target repl : Str) : Str :=
  match idxOfSub s target with
  | none => s
  | some i =>
    s.take i ++ getSubst repl target (s.take i) (s.drop (i + target.length))
      ++ s.drop (i + target.length)

/-- Insertion-ordered string map with update-in-place on overwrite: the
semantics of both JavaScript object property assignment and `Map.set`. -/
def mapSet {α : Type} (m : List (Str × α)) (k : Str) (v : α) : List (Str × α) :=
  match m with
  | [] => [(k, v)]
  | (k', v') :: rest => if k' = k then (k, v) :: rest else (k', v') :: mapSet rest k v

/-- Lookup in an insertion-ordered map (JavaScript property read / `Map.get`). -/
def mapGet {α : Type} (m : List (Str × α)) (k : Str) : Option α :=
  match m with
  | [] => none
  | (k', v) :: rest => if k' = k then some v else mapGet rest k

/-- JavaScript `String(x)` for a possibly-undefined string value: an absent
property reads as `undefined`, and `String(undefined) = "undefined"`. -/
def jsShow (o : Option Str) : Str :=
  match o with
  | none => "undefined".data
  | some v => v

-- ----------------- extractBlock -----------------

/-- Scans for the closing brace that brings the depth down to zero, starting at
depth `d ≥ 1`; returns the offset of that closing brace. -/
def findClose : Str → Nat → Option Nat
  | [], _ => none
  | c :: rest, d =>
    if c = lbrace then (findClose rest (d + 1)).map (· + 1)
    else if c = rbrace then
      if d = 1 then some 0 else (findClose rest (d - 1)).map (· + 1)
    else (findClose rest d).map (· + 1)

/-- Embeds `extractBlock(content, startIndex)`: expects `{` at `startIndex` and
returns the text strictly between the balanced braces together with the index
one past the matching `}`; mirrors the source's depth-counting loop, including
the `(null, content.length)` result when no matching close exists and the
`(null, startIndex)` result when `startIndex` does not hold `{`. -/
def extractBlock (content : Str) (startIndex : Nat) : Option Str × Nat :=
  if content.get? startIndex = some lbrace then
    match findClose (content.drop (startIndex + 1)) 1 with
    | some off =>
      (some ((content.drop (startIndex + 1)).take off), startIndex + 1 + off + 1)
    | none => (none, content.length)
  else (none, startIndex)

/-- Head-anchored form of `extractBlock` used by the consuming scanners:
on input starting with `{` returns the block and the remainder after the
matching `}`. -/
def extractBlockHead (l : Str) : Option (Str × Str) :=
  match l with
  | c :: rest =>
    if c = lbrace then
      match findClose rest 1 with
      | some off => some (rest.take off, rest.drop (off + 1))
      | none => none
    else none
  | [] => none

theorem findClose_lt_length {l : Str} {d off : Nat} (h : findClose l d = some off) :
    off < l.length := by
  induction l generalizing d off with
  | nil => simp [findClose] at h
  | cons c rest ih =>
    simp only [findClose] at h
    split at h
    · simp only [Option.map_eq_some'] at h
      obtain ⟨j, hj, hje⟩ := h
      cases hje
      have := ih hj
      simp; omega
    · split at h
      · split at h
        · cases h; simp
        · simp only [Option.map_eq_some'] at h
          obtain ⟨j, hj, hje⟩ := h
          cases hje
          have := ih hj
          simp; omega
      · simp only [Option.map_eq_some'] at h
        obtain ⟨j, hj, hje⟩ := h
        cases hje
        have := ih hj
        simp; omega

theorem extractBlockHead_length {l inner rest : Str}
    (h : extractBlockHead l = some (inner, rest)) :
    inner.length + rest.length + 2 ≤ l.length := by
  match l with
  | [] => simp [extractBlockHead] at h
  | c :: t =>
    simp only [extractBlockHead] at h
    split at h
    · cases hfc : findClose t 1 with
      | none => rw [hfc] at h; simp at h
      | some off =>
        rw [hfc] at h
        cases h
        have hlt := findClose_lt_length hfc
        simp [List.length_take, List.length_drop]
        omega
    · simp at h

theorem length_takeWhile_le (p : Char → Bool) (l : Str) :
    (l.takeWhile p).length ≤ l.length := by
  induction l with
  | nil => simp [List.takeWhile]
  | cons c t ih =>
    simp only [List.takeWhile]
    cases p c <;> simp <;> omega

theorem length_dropWhile_le (p : Char → Bool) (l : Str) :
    (l.dropWhile p).length ≤ l.length := by
  induction l with
  | nil => simp [List.dropWhile]
  | cons c t ih =>
    simp only [List.dropWhile]
    cases p c <;> simp <;> omega

theorem strStarts_length_le {p l : Str} (h : strStarts p l = true) :
    p.length ≤ l.length := by
  induction p generalizing l with
  | nil => simp
  | cons c t ih =>
    cases l with
    | nil => simp [strStarts] at h
    | cons d r =>
      simp only [strStarts, Bool.and_eq_true] at h
      have := ih h.2
      simp; omega

theorem splitAtChar_parts {c : Char} {l a b : Str} (h : splitAtChar c l = some (a, b)) :
    ∃ i, a = l.take i ∧ b = l.drop i := by
  simp only [splitAtChar, Option.map_eq_some'] at h
  obtain ⟨i, _, he⟩ := h
  cases he
  exact ⟨i, rfl, rfl⟩

theorem splitAtChar_snd_le {c : Char} {l a b : Str} (h : splitAtChar c l = some (a, b)) :
    b.length ≤ l.length := by
  obtain ⟨i, _, hb⟩ := splitAtChar_parts h
  simp [hb]

-- ----------------- Data model -----------------

/-- A declared component parameter: `{ name, defaultValue }` as produced by
`parseParamList` (the leading `$` is stripped from the name). -/
structure Param where
  name : Str
  defaultValue : Option Str
deriving DecidableEq, Repr

/-- A parsed `component Name(params) { body }` definition. -/
structure ComponentDef where
  name : Str
  params : List Param
  body : Str
deriving DecidableEq, Repr

/-- A parsed `Component.instance { props }` instantiation request. -/
structure InstanceReq where
  componentName : Str
  instanceName : Str
  props : List (Str × Str)
  rawBody : Str
deriving DecidableEq, Repr

/-- One `logger.warning`/`logger.error` call, collected instead of printed. -/
structure LogEntry where
  level : String
  message : String
deriving DecidableEq, Repr

-- ----------------- Header matchers -----------------

/-- Anchored match of the component-header regex
`component\s+([a-zA-Z][a-zA-Z0-9_\-]*)\s*\(([^)]*)\)\s*` at the start of `l`;
returns the two capture groups and the length of the match.  The regex is
deterministic here: every quantifier is greedy and no backtracking can succeed
where the greedy parse fails. -/
def matchCompHeaderAt (l : Str) : Option (Str × Str × Nat) :=
  if strStarts "component".data l then
    let r1 := l.drop 9
    let ws1 := r1.takeWhile isWs
    if ws1.length = 0 then none
    else
      let r2 := r1.drop ws1.length
      match r2 with
      | c :: _ =>
        if isAlphaChar c then
          let name := r2.takeWhile isIdentChar
          let r3 := r2.drop name.length
          let ws2 := r3.takeWhile isWs
          let r4 := r3.drop ws2.length
          match r4 with
          | po :: r5 =>
            if po = '(' then
              let params := r5.takeWhile (· ≠ ')')
              let r6 := r5.drop params.length
              match r6 with
              | pc :: r7 =>
                if pc = ')' then
                  some (name, params,
                    9 + ws1.length + name.length + ws2.length + 1 + params.length + 1
                      + (r7.takeWhile isWs).length)
                else none
              | [] => none
            else none
          | [] => none
        else none
      | [] => none
  else none

/-- Leftmost match of the component-header regex: start index, capture groups
and the length of the match. -/
def findCompHeader : Str → Option (Nat × Str × Str × Nat)
  | [] => none
  | l@(_ :: t) =>
    match matchCompHeaderAt l with
    | some (n, p, len) => some (0, n, p, len)
    | none => (findCompHeader t).map fun x => (x.1 + 1, x.2)

/-- Anchored match of the instance-header regex
`([a-zA-Z][a-zA-Z0-9_\-]*)\.([a-zA-Z][a-zA-Z0-9_\-]*)\s*` at the start of `l`;
returns the two capture groups and the length of the match. -/
def matchInstHeaderAt (l : Str) : Option (Str × Str × Nat) :=
  match l with
  | c :: _ =>
    if isAlphaChar c then
      let n1 := l.takeWhile isIdentChar
      let r1 := l.drop n1.length
      match r1 with
      | dot :: r2 =>
        if dot = '.' then
          match r2 with
          | d :: _ =>
            if isAlphaChar d then
              let n2 := r2.takeWhile isIdentChar
              let r3 := r2.drop n2.length
              some (n1, n2, n1.length + 1 + n2.length + (r3.takeWhile isWs).length)
            else none
          | [] => none
        else none
      | [] => none
    else none
  | [] => none

/-- Leftmost match of the instance-header regex. -/
def findInstHeader : Str → Option (Nat × Str × Str × Nat)
  | [] => none
  | l@(_ :: t) =>
    match matchInstHeaderAt l with
    | some (n, p, len) => some (0, n, p, len)
    | none => (findInstHeader t).map fun x => (x.1 + 1, x.2)

theorem matchCompHeaderAt_len_pos {l n p : Str} {len : Nat}
    (h : matchCompHeaderAt l = some (n, p, len)) : 1 ≤ len := by
  simp only [matchCompHeaderAt] at h
  repeat' split at h
  any_goals exact Option.noConfusion h
  injection h with h2
  cases h2
  omega

theorem matchInstHeaderAt_len_pos {l n p : Str} {len : Nat}
    (h : matchInstHeaderAt l = some (n, p, len)) : 1 ≤ len := by
  simp only [matchInstHeaderAt] at h
  repeat' split at h
  any_goals exact Option.noConfusion h
  injection h with h2
  cases h2
  omega

theorem findCompHeader_len_pos {l : Str} {s len : Nat} {n p : Str}
    (h : findCompHeader l = some (s, n, p, len)) : 1 ≤ len ∧ 1 ≤ l.length := by
  induction l generalizing s with
  | nil => exact Option.noConfusion h
  | cons c t ih =>
    simp only [findCompHeader] at h
    split at h
    · rename_i heq
      injection h with h2
      cases h2
      exact ⟨matchCompHeaderAt_len_pos heq, by simp⟩
    · simp only [Option.map_eq_some'] at h
      obtain ⟨⟨xs, xn, xp, xlen⟩, hx, he⟩ := h
      cases he
      obtain ⟨h1, -⟩ := ih hx
      exact ⟨h1, by simp⟩

theorem findInstHeader_len_pos {l : Str} {s len : Nat} {n p : Str}
    (h : findInstHeader l = some (s, n, p, len)) : 1 ≤ len ∧ 1 ≤ l.length := by
  induction l generalizing s with
  | nil => exact Option.noConfusion h
  | cons c t ih =>
    simp only [findInstHeader] at h
    split at h
    · rename_i heq
      injection h with h2
      cases h2
      exact ⟨matchInstHeaderAt_len_pos heq, by simp⟩
    · simp only [Option.map_eq_some'] at h
      obtain ⟨⟨xs, xn, xp, xlen⟩, hx, he⟩ := h
      cases he
      obtain ⟨h1, -⟩ := ih hx
      exact ⟨h1, by simp⟩

-- ----------------- Parameter lists -----------------

/-- Strips one leading `$` (the JavaScript replace `/^\$/`). -/
def dropLeadingDollar (l : Str) : Str :=
  match l with
  | c :: rest => if c = '$' then rest else l
  | [] => []

/-- Parses one comma-separated parameter entry: supports `name = default` and
`name: default` (split at the first separator, `=` checked first), a bare name
meaning no default; the name loses a leading `$`, the default is trimmed and
quote-stripped.  Empty entries give `none` (the source's `filter(Boolean)`). -/
def paramFromRaw (pRaw : Str) : Option Param :=
  let raw := jsTrim pRaw
  if raw = [] then none
  else if raw.contains '=' then
    let pre := raw.takeWhile (· ≠ '=')
    some ⟨dropLeadingDollar (jsTrim pre), some (stripQuotes (jsTrim (raw.drop (pre.length + 1))))⟩
  else if raw.contains ':' then
    let pre := raw.takeWhile (· ≠ ':')
    some ⟨dropLeadingDollar (jsTrim pre), some (stripQuotes (jsTrim (raw.drop (pre.length + 1))))⟩
  else some ⟨dropLeadingDollar raw, none⟩

/-- Embeds `parseParamList`: split on commas, parse each entry, drop empties. -/
def parseParamList (paramsStr : Str) : List Param :=
  if jsTrim paramsStr = [] then []
  else (splitOnChar ',' paramsStr).filterMap paramFromRaw

/-- Embeds `cleanBlockString` (`replace(/^\s+|\s+$/g, '')`, i.e. trim). -/
def cleanBlockString (s : Str) : Str := jsTrim s

-- ----------------- parseComponentDefinition -----------------

/-- The scanning loop of `parseComponentDefinition`: find a header match, look
for the next `{` from the end of the match, extract the balanced block; a
missing `{` or an unbalanced block skips the header (the regex cursor stays at
the end of the header match) without aborting the scan. -/
def parseCompLoop : Nat → Str → List ComponentDef
  | 0, _ => []
  | fuel + 1, rem =>
    match findCompHeader rem with
    | none => []
    | some (s, name, params, len) =>
      match splitAtChar lbrace (rem.drop (s + len)) with
      | none => parseCompLoop fuel (rem.drop (s + len))
      | some (_, atBrace) =>
        match extractBlockHead atBrace with
        | none => parseCompLoop fuel (rem.drop (s + len))
        | some (inner, afterBlock) =>
          ⟨name, parseParamList params, cleanBlockString inner⟩ :: parseCompLoop fuel afterBlock

/-- Embeds `parseComponentDefinition(content)`.  Every loop iteration advances
the cursor by at least one character, so `length + 1` iterations always
suffice; the explicit bound keeps the recursion structural. -/
def parseComponentDefinition (content : Str) : List ComponentDef :=
  parseCompLoop (content.length + 1) content

-- ----------------- parseComponentInstances -----------------

/-- Anchored match of the instance-property regex
`\$([a-zA-Z0-9_\-]+)\s*:\s*([^;]+);?` at the start of `l`, including the
backtracking case in which the greedy `\s*` after the colon gives back one
whitespace character so that `[^;]+` can match it.  Returns the name group,
the raw value group and the length of the match. -/
def matchPropAt (l : Str) : Option (Str × Str × Nat) :=
  match l with
  | c :: r1 =>
    if c = '$' then
      let name := r1.takeWhile isIdentChar
      if name.length = 0 then none
      else
        let r2 := r1.drop name.length
        let ws1 := r2.takeWhile isWs
        let r3 := r2.drop ws1.length
        match r3 with
        | colon :: r4 =>
          if colon = ':' then
            let w := r4.takeWhile isWs
            let r5 := r4.drop w.length
            let headLen := 1 + name.length + ws1.length + 1
            match r5 with
            | v :: r6 =>
              if v = ';' then
                -- value would be empty: backtrack one whitespace character
                match w.getLast? with
                | some wc => some (name, [wc], headLen + w.length + 1)
                | none => none
              else
                let value := r5.takeWhile (· ≠ ';')
                let r7 := r5.drop value.length
                match r7 with
                | semi :: _ =>
                  if semi = ';' then some (name, value, headLen + w.length + value.length + 1)
                  else some (name, value, headLen + w.length + value.length)
                | [] => some (name, value, headLen + w.length + value.length)
            | [] =>
              match w.getLast? with
              | some wc => some (name, [wc], headLen + w.length)
              | none => none
          else none
        | [] => none
    else none
  | [] => none

theorem matchPropAt_len_pos {l n v : Str} {len : Nat}
    (h : matchPropAt l = some (n, v, len)) : 1 ≤ len := by
  simp only [matchPropAt] at h
  repeat' split at h
  any_goals exact Option.noConfusion h
  all_goals (injection h with h2; cases h2; omega)

/-- The property-scanning loop over an instance body: left-to-right global
regex scan, assigning `props[name] = trimmed, quote-stripped value`. -/
def propScanLoop : Nat → Str → List (Str × Str) → List (Str × Str)
  | 0, _, props => props
  | fuel + 1, l, props =>
    match matchPropAt l with
    | some (n, v, len) => propScanLoop fuel (l.drop len) (mapSet props n (stripQuotes (jsTrim v)))
    | none =>
      match l with
      | [] => props
      | _ :: t => propScanLoop fuel t props

/-- The scanning loop of `parseComponentInstances`. -/
def parseInstLoop : Nat → Str → List InstanceReq
  | 0, _ => []
  | fuel + 1, rem =>
    match findInstHeader rem with
    | none => []
    | some (s, compName, instName, len) =>
      match splitAtChar lbrace (rem.drop (s + len)) with
      | none => parseInstLoop fuel (rem.drop (s + len))
      | some (_, atBrace) =>
        match extractBlockHead atBrace with
        | none => parseInstLoop fuel (rem.drop (s + len))
        | some (inner, afterBlock) =>
          let body := cleanBlockString inner
          ⟨compName, instName, propScanLoop (body.length + 1) body [], body⟩
            :: parseInstLoop fuel afterBlock

/-- Embeds `parseComponentInstances(content)` (`length + 1` iterations always
suffice, as for the definition parser). -/
def parseComponentInstances (content : Str) : List InstanceReq :=
  parseInstLoop (content.length + 1) content

-- ----------------- stripComponentAndInstanceBlocks -----------------

/-- The component scan of `stripComponentAndInstanceBlocks`, recording
`[start, end]` ranges in absolute positions.  Unlike the definition parser it
pushes a range even when the block is unbalanced (with `end` equal to the
content length, after which the regex cursor is past the end and the loop
stops). -/
def compRangesLoop (totalLen : Nat) : Nat → Nat → Str → List (Nat × Nat)
  | 0, _, _ => []
  | fuel + 1, off, rem =>
    match findCompHeader rem with
    | none => []
    | some (s, _, _, len) =>
      match splitAtChar lbrace (rem.drop (s + len)) with
      | none => compRangesLoop totalLen fuel (off + s + len) (rem.drop (s + len))
      | some (gap, atBrace) =>
        match extractBlockHead atBrace with
        | some (inner, afterBlock) =>
          (off + s, off + s + len + gap.length + inner.length + 2)
            :: compRangesLoop totalLen fuel (off + s + len + gap.length + inner.length + 2)
              afterBlock
        | none => [(off + s, totalLen)]

/-- The instance scan of `stripComponentAndInstanceBlocks`. -/
def instRangesLoop (totalLen : Nat) : Nat → Nat → Str → List (Nat × Nat)
  | 0, _, _ => []
  | fuel + 1, off, rem =>
    match findInstHeader rem with
    | none => []
    | some (s, _, _, len) =>
      match splitAtChar lbrace (rem.drop (s + len)) with
      | none => instRangesLoop totalLen fuel (off + s + len) (rem.drop (s + len))
      | some (gap, atBrace) =>
        match extractBlockHead atBrace with
        | some (inner, afterBlock) =>
          (off + s, off + s + len + gap.length + inner.length + 2)
            :: instRangesLoop totalLen fuel (off + s + len + gap.length + inner.length + 2)
              afterBlock
        | none => [(off + s, totalLen)]

/-- Absolute `[start, end]` ranges of component blocks found by the strip scan. -/
def compRanges (content : Str) : List (Nat × Nat) :=
  compRangesLoop content.length (content.length + 1) 0 content

/-- Absolute `[start, end]` ranges of instance-like blocks found by the strip scan. -/
def instRanges (content : Str) : List (Nat × Nat) :=
  instRangesLoop content.length (content.length + 1) 0 content

/-- Stable insertion step for the descending-by-start sort
(`ranges.sort((a, b) => b[0] - a[0])`, V8 sort being stable). -/
def rangeInsertDesc (x : Nat × Nat) : List (Nat × Nat) → List (Nat × Nat)
  | [] => [x]
  | y :: t => if x.1 ≥ y.1 then x :: y :: t else y :: rangeInsertDesc x t

/-- Stable sort of ranges by descending start. -/
def sortRangesDesc (l : List (Nat × Nat)) : List (Nat × Nat) :=
  l.foldr rangeInsertDesc []

/-- Embeds `stripComponentAndInstanceBlocks`: removes every component and
instance-like block (each range cut as `remaining.slice(0, s) +
remaining.slice(e)`, in descending-start order, with the original indices
applied to the progressively shortened string, exactly as the source does);
returns the input unchanged when no range was found, and trims otherwise. -/
def stripComponentAndInstanceBlocks (content : Str) : Str :=
  let ranges := compRanges content ++ instRanges content
  if ranges = [] then content
  else jsTrim ((sortRangesDesc ranges).foldl (fun rem r => rem.take r.1 ++ rem.drop r.2) content)

-- ----------------- processWhenConditions -----------------

/-- Anchored match of the when-header regex
`when\s+\$([a-zA-Z0-9_\-]+)\s*(==|!=)\s*([^\s{]+)\s*` at the start of `l`;
returns variable name, operator, raw literal and match length. -/
def matchWhenHeaderAt (l : Str) : Option (Str × Str × Str × Nat) :=
  if strStarts "when".data l then
    let r1 := l.drop 4
    let ws1 := r1.takeWhile isWs
    if ws1.length = 0 then none
    else
      let r2 := r1.drop ws1.length
      match r2 with
      | d :: r3 =>
        if d = '$' then
          let v := r3.takeWhile isIdentChar
          if v.length = 0 then none
          else
            let r4 := r3.drop v.length
            let ws2 := r4.takeWhile isWs
            let r5 := r4.drop ws2.length
            let opv : Option Str :=
              if strStarts "==".data r5 then some "==".data
              else if strStarts "!=".data r5 then some "!=".data
              else none
            match opv with
            | none => none
            | some op =>
              let r6 := r5.drop 2
              let ws3 := r6.takeWhile isWs
              let r7 := r6.drop ws3.length
              let lit := r7.takeWhile (fun c => !(isWs c) && c ≠ lbrace)
              if lit.length = 0 then none
              else
                some (v, op, lit,
                  4 + ws1.length + 1 + v.length + ws2.length + 2 + ws3.length + lit.length
                    + ((r7.drop lit.length).takeWhile isWs).length)
        else none
      | [] => none
  else none

/-- Leftmost match of the when-header regex. -/
def findWhenHeader : Str → Option (Nat × Str × Str × Str × Nat)
  | [] => none
  | l@(_ :: t) =>
    match matchWhenHeaderAt l with
    | some (v, op, lit, len) => some (0, v, op, lit, len)
    | none => (findWhenHeader t).map fun x => (x.1 + 1, x.2)

theorem matchWhenHeaderAt_len_pos {l v op lit : Str} {len : Nat}
    (h : matchWhenHeaderAt l = some (v, op, lit, len)) : 1 ≤ len := by
  simp only [matchWhenHeaderAt] at h
  repeat' split at h
  any_goals exact Option.noConfusion h
  all_goals (injection h with h2; cases h2; omega)

theorem findWhenHeader_len_pos {l : Str} {s len : Nat} {v op lit : Str}
    (h : findWhenHeader l = some (s, v, op, lit, len)) : 1 ≤ len ∧ 1 ≤ l.length := by
  induction l generalizing s with
  | nil => exact Option.noConfusion h
  | cons c t ih =>
    simp only [findWhenHeader] at h
    split at h
    · rename_i heq
      injection h with h2
      cases h2
      exact ⟨matchWhenHeaderAt_len_pos heq, by simp⟩
    · simp only [Option.map_eq_some'] at h
      obtain ⟨⟨xs, xv, xop, xlit, xlen⟩, hx, he⟩ := h
      cases he
      obtain ⟨h1, -⟩ := ih hx
      exact ⟨h1, by simp⟩

/-- The scanning loop of `processWhenConditions`: on each when-header match the
text before the match is kept, the block after the next `{` is extracted, and
either the block body (condition holds) or nothing (condition fails) replaces
the whole construct; the comparison is `String(props[v]) === literal` with the
literal trimmed and quote-stripped — exact string comparison.  When no `{`
follows, the header itself is dropped and scanning continues; when the block
is unbalanced, JavaScript appends `block` (which is `null`) to a string,
producing the text `null`, and the loop ends at the end of the body. -/
def whenLoop (props : List (Str × Str)) : Nat → Str → Str
  | 0, body => body
  | fuel + 1, body =>
    match findWhenHeader body with
    | none => body
    | some (s, v, op, lit, len) =>
      let pre := body.take s
      match splitAtChar lbrace (body.drop (s + len)) with
      | none => pre ++ whenLoop props fuel (body.drop (s + len))
      | some (_, atBrace) =>
        let rawValue := stripQuotes (jsTrim lit)
        let instanceVal := jsShow (mapGet props v)
        let cond : Bool :=
          if op = "==".data then instanceVal = rawValue
          else if op = "!=".data then instanceVal ≠ rawValue
          else false
        match extractBlockHead atBrace with
        | some (inner, afterBlock) =>
          pre ++ (if cond then inner else []) ++ whenLoop props fuel afterBlock
        | none =>
          pre ++ (if cond then "null".data else [])

/-- Embeds `processWhenConditions(body, props)` (each iteration advances the
cursor, so `length + 1` iterations always suffice). -/
def processWhenConditions (body : Str) (props : List (Str × Str)) : Str :=
  whenLoop props (body.length + 1) body

-- ----------------- processVariables -----------------

/-- The negative lookahead `(?![a-zA-Z0-9_-])`: holds when the remaining text
does not start with an identifier character. -/
def boundaryOk : Str → Bool
  | [] => true
  | c :: _ => !(isIdentChar c)

/-- One global-replace pass for the regex `\$key(?![a-zA-Z0-9_-])` with the
value as replacement (`GetSubstitution` applied, `before` accumulating the
original prefix): matches are found left to right in the original text and
never re-scanned. -/
def replaceVarScan (key value : Str) : Nat → Str → Str → Str
  | 0, _, l => l
  | fuel + 1, before, l =>
    match l with
    | [] => []
    | c :: rest =>
      if strStarts ('$' :: key) (c :: rest) && boundaryOk ((c :: rest).drop (key.length + 1)) then
        getSubst value ('$' :: key) before ((c :: rest).drop (key.length + 1))
          ++ replaceVarScan key value fuel (before ++ '$' :: key)
            ((c :: rest).drop (key.length + 1))
      else c :: replaceVarScan key value fuel (before ++ [c]) rest

/-- The cleanup pass `processed.replace(/\$([a-zA-Z0-9_-]+)/g, '')`: every `$`
followed by at least one identifier character is deleted together with the
whole identifier run. -/
def stripVarTokens : Nat → Str → Str
  | 0, _ => []
  | fuel + 1, l =>
    match l with
    | [] => []
    | c :: rest =>
      if c = '$' && (match rest with | d :: _ => isIdentChar d | [] => false) then
        stripVarTokens fuel (rest.dropWhile isIdentChar)
      else c :: stripVarTokens fuel rest

/-- Embeds `processVariables(body, mergedProps)`: one replacement pass per
declared variable in insertion order, then deletion of remaining `$ident`
tokens. -/
def processVariables (body : Str) (mergedProps : List (Str × Str)) : Str :=
  let processed := mergedProps.foldl
    (fun acc kv => replaceVarScan kv.1 kv.2 (acc.length + 1) [] acc) body
  stripVarTokens (processed.length + 1) processed

-- ----------------- buildAst / generateCssFromAst -----------------

mutual

/-- A node of the source's rule tree: `{ selector, rules, children }`
(the root has `selector: null`). -/
inductive Ast where
  | node (selector : Option Str) (rules : List Str) (children : AstList)

/-- The children array of a node (a dedicated list type keeps all recursion
over the tree plainly structural). -/
inductive AstList where
  | nil
  | cons (head : Ast) (tail : AstList)

end

/-- The `TypeError` message thrown by `buildAst(null)` in Node. -/
def jsNullLengthMsg : String := "Cannot read properties of null (reading \x27length\x27)"

/-- The scanning loop of `buildAst`: at each step skip whitespace, then compare
the positions of the next `;` and the next `{`; a leading `;`-terminated
segment becomes a rule, a `{` introduces a nested block (recursively parsed),
text with neither becomes trailing rules.  An unbalanced nested block makes
the source call `buildAst(null)`, which throws. -/
def buildAstCore : Nat → Str → Except String (List Str × AstList)
  | 0, _ => .ok ([], .nil)
  | fuel + 1, rem =>
    match rem.dropWhile isWs with
    | [] => .ok ([], .nil)
    | c :: t =>
      match idxOf ';' (c :: t), idxOf lbrace (c :: t) with
      | some ns, some nb =>
        if ns < nb then
          match buildAstCore fuel ((c :: t).drop (ns + 1)) with
          | .error e => .error e
          | .ok (lr, lc) =>
            .ok ((if jsTrim ((c :: t).take ns) ≠ [] then [jsTrim ((c :: t).take ns) ++ [';']]
              else []) ++ lr, lc)
        else
          match extractBlockHead ((c :: t).drop nb) with
          | none => .error jsNullLengthMsg
          | some (inner, after) =>
            match buildAstCore fuel inner with
            | .error e => .error e
            | .ok (ir, ic) =>
              match buildAstCore fuel after with
              | .error e => .error e
              | .ok (lr, lc) =>
                .ok (lr, AstList.cons (Ast.node (some (jsTrim ((c :: t).take nb))) ir ic) lc)
      | some ns, none =>
        match buildAstCore fuel ((c :: t).drop (ns + 1)) with
        | .error e => .error e
        | .ok (lr, lc) =>
          .ok ((if jsTrim ((c :: t).take ns) ≠ [] then [jsTrim ((c :: t).take ns) ++ [';']]
            else []) ++ lr, lc)
      | none, some nb =>
        match extractBlockHead ((c :: t).drop nb) with
        | none => .error jsNullLengthMsg
        | some (inner, after) =>
          match buildAstCore fuel inner with
          | .error e => .error e
          | .ok (ir, ic) =>
            match buildAstCore fuel after with
            | .error e => .error e
            | .ok (lr, lc) =>
              .ok (lr, AstList.cons (Ast.node (some (jsTrim ((c :: t).take nb))) ir ic) lc)
      | none, none =>
        .ok ((((splitOnChar ';' (jsTrim (c :: t))).map jsTrim).filter (· ≠ [])).map (· ++ [';']),
          .nil)
/-- Embeds `buildAst(body)`: the root node with `selector: null`. -/
def buildAst (body : Str) : Except String Ast :=
  match buildAstCore (body.length + 1) body with
  | .error e => .error e
  | .ok rc => .ok (Ast.node none rc.1 rc.2)

/-- One `part.replace(/&/g, pSel)` pass (every `&` replaced by the parent
selector, `GetSubstitution` applied to the replacement). -/
def replaceAmpScan (pSel before : Str) : Str → Str
  | [] => []
  | c :: rest =>
    if c = '&' then
      getSubst pSel "&".data before rest ++ replaceAmpScan pSel (before ++ ['&']) rest
    else c :: replaceAmpScan pSel (before ++ [c]) rest

/-- Embeds `combineSelectors(parentSelectors, selector)`: the selector is split
on commas, trimmed, empties dropped; each part is combined with each parent
selector by the `&` / `:` / `>` / `[` / `.`,`#` / default rules. -/
def combineSelectors (parents : List Str) (selector : Str) : List Str :=
  let parts := ((splitOnChar ',' selector).map jsTrim).filter (· ≠ [])
  (parents.map fun pSel =>
    parts.map fun part =>
      if part.contains '&' then replaceAmpScan pSel [] part
      else
        match part with
        | ch :: _ =>
          if ch = ':' then pSel ++ part
          else if ch = '>' then pSel ++ ' ' :: part
          else if ch = '[' then pSel ++ part
          else if ch = '.' || ch = '#' then pSel ++ ' ' :: part
          else pSel ++ ' ' :: part
        | [] => pSel ++ ' ' :: part).flatten

mutual

/-- The `emitNode` closure of `generateCssFromAst`: emits this node's block
(selector list joined with `, `, rules indented) and then its children, with
selector combination threading the parent selectors. -/
def emitNode : Ast → List Str → List Str
  | .node sel rules children, parents =>
    let s := jsTrim (sel.getD [])
    let finalSels := if s.length ≠ 0 then combineSelectors parents s else parents
    (if rules.length ≠ 0 then
      (joinWith ", ".data finalSels ++ ' ' :: [lbrace])
        :: rules.map (fun r => "  ".data ++ r) ++ [[rbrace]]
    else []) ++ emitChildren children finalSels

/-- Emits the children in document order. -/
def emitChildren : AstList → List Str → List Str
  | .nil, _ => []
  | .cons child rest, parents => emitNode child parents ++ emitChildren rest parents

end

/-- Embeds `generateCssFromAst(ast, className)`: the root's own rules go in a
synthetic `.className` block, children are emitted under the parent selector
`.className`, and all lines are joined with blank lines. -/
def generateCssFromAst (ast : Ast) (className : Str) : Str :=
  match ast with
  | .node _ rules children =>
    let head := if rules.length ≠ 0 then
        (('.' :: className) ++ ' ' :: [lbrace]) :: rules.map (fun r => "  ".data ++ r) ++ [[rbrace]]
      else []
    joinWith "\n\n".data (head ++ emitChildren children ['.' :: className])

-- ----------------- buildMergedProps / processComponentInstance -----------------

/-- Embeds `buildMergedProps(componentParams, instanceProps, componentName,
instanceName)`: instance value wins over the default; a parameter with neither
logs an error naming the component and instance and is left out of the merged
map (execution continues). -/
def buildMergedProps (componentParams : List Param) (instanceProps : List (Str × Str))
    (componentName instanceName : Str) : List (Str × Str) × List LogEntry :=
  componentParams.foldl (fun acc p =>
    match mapGet instanceProps p.name with
    | some v => (mapSet acc.1 p.name v, acc.2)
    | none =>
      match p.defaultValue with
      | some d => (mapSet acc.1 p.name d, acc.2)
      | none => (acc.1, acc.2 ++ [⟨"error",
          "Default value not defined for $" ++ String.mk p.name ++ " in instance "
            ++ String.mk componentName ++ "." ++ String.mk instanceName⟩])) ([], [])

/-- Embeds `processComponentInstance(component, instance, className)`:
merge props, evaluate `when` blocks, substitute variables, build the tree and
emit trimmed CSS.  The `buildAst(null)` throw surfaces as `Except.error`; the
merge errors are returned as logs. -/
def processComponentInstance (component : ComponentDef) (inst : InstanceReq)
    (className : Str) : Except String (Str × List LogEntry) :=
  let ml := buildMergedProps component.params inst.props component.name inst.instanceName
  let body1 := processWhenConditions component.body ml.1
  let body2 := processVariables body1 ml.1
  match buildAst body2 with
  | .error e => .error e
  | .ok ast => .ok (jsTrim (generateCssFromAst ast className), ml.2)

-- ----------------- processContentString -----------------

/-- Digits of a natural number (JavaScript number-to-string for the counter). -/
def natToStr (n : Nat) : Str := (toString n).data

/-- The `while (usedClassNames.has(unique))` loop: tries `base`, then
`base-1`, `base-2`, …; the explicit bound `used.length + 1` is never reached
because the candidates are pairwise distinct and `used` is finite. -/
def freshGo (base : Str) (used : List Str) : Nat → Nat → Str
  | _, 0 => base
  | counter, left + 1 =>
    let cand := base ++ '-' :: natToStr counter
    if cand ∈ used then freshGo base used (counter + 1) left else cand

/-- Picks the unique class name for an instance. -/
def freshClassName (base : Str) (used : List Str) : Str :=
  if base ∈ used then freshGo base used 1 (used.length + 1) else base

/-- The instance loop of `processContentString`: unknown components are
skipped with a warning; each produced block is labelled with a
`/* Instance: Component.instance */` comment and double-newline separated. -/
def pcsLoop (components : List (Str × ComponentDef)) :
    List InstanceReq → List Str → Str → List LogEntry → Except String (Str × List LogEntry)
  | [], _, gen, logs => .ok (gen, logs)
  | inst :: rest, used, gen, logs =>
    match mapGet components inst.componentName with
    | none =>
      pcsLoop components rest used gen (logs ++ [⟨"warning",
        "No component in \x22" ++ String.mk inst.componentName
          ++ "\x22 this is an simple css syntax it doesn\x27t have axcss syntax"⟩])
    | some comp =>
      let unique := freshClassName (toLowerStr inst.instanceName) used
      match processComponentInstance comp inst unique with
      | .error e => .error e
      | .ok (css, ilogs) =>
        pcsLoop components rest (used ++ [unique])
          (gen ++ "/* Instance: ".data ++ inst.componentName ++ '.' :: inst.instanceName
            ++ " */\n".data ++ css ++ "\n\n".data)
          (logs ++ ilogs)

/-- Embeds `processContentString(content)`: plain CSS (component and instance
blocks stripped) followed by the generated instance blocks, both trimmed,
joined by a blank line when both are nonempty.  No comment stripping and no
normalisation happen here. -/
def processContentString (content : Str) : Except String (Str × List LogEntry) :=
  let plainCSS := stripComponentAndInstanceBlocks content
  let components := (parseComponentDefinition content).foldl (fun m d => mapSet m d.name d) []
  let instances := parseComponentInstances content
  match pcsLoop components instances [] [] [] with
  | .error e => .error e
  | .ok (gen, logs) =>
    .ok (joinWith "\n\n".data (([jsTrim plainCSS, jsTrim gen]).filter (· ≠ [])), logs)

-- ----------------- Static analyzer -----------------

/-- Short name for turning an embedded string into a display string. -/
def sOf : Str → String := String.mk

/-- Embeds `indexToLineCol(text, index)` (1-based line and column). -/
def indexToLineCol (text : Str) (index : Nat) : Nat × Nat :=
  let segs := splitOnChar '\n' (text.take index)
  (segs.length, (segs.getLast?.getD []).length + 1)

/-- One structured diagnostic of the analyzer. -/
structure Diagnostic where
  severity : String
  message : String
  line : Nat
  column : Nat
  suggestion : Option String := none
deriving DecidableEq, Repr

/-- Embeds `scanBraces`: the stack-based scan collecting indices of unmatched
closing braces (in occurrence order) and of never-closed opening braces
(remaining stack, in push order). -/
def scanBracesLoop : Str → Nat → List Nat → List Nat → List Nat × List Nat
  | [], _, stack, closes => (stack.reverse, closes.reverse)
  | c :: rest, i, stack, closes =>
    if c = lbrace then scanBracesLoop rest (i + 1) (i :: stack) closes
    else if c = rbrace then
      match stack with
      | [] => scanBracesLoop rest (i + 1) [] (i :: closes)
      | _ :: s => scanBracesLoop rest (i + 1) s closes
    else scanBracesLoop rest (i + 1) stack closes

/-- Unmatched opens (ascending) and unmatched closes (ascending) of a text. -/
def scanBraces (content : Str) : List Nat × List Nat :=
  scanBracesLoop content 0 [] []

/-- The word boundary `\b` after `component`: next character is not `\w`. -/
def boundaryWordOk : Str → Bool
  | [] => true
  | c :: _ => !(isWordChar c)

/-- Positions of `/component\b/g` matches (the regex cursor advances over each
match, which for this aperiodic literal equals advancing one character at a
time). -/
def compKeywordLoop : Nat → Nat → Str → List Nat
  | 0, _, _ => []
  | _ + 1, _, [] => []
  | fuel + 1, off, c :: t =>
    if strStarts "component".data (c :: t) && boundaryWordOk ((c :: t).drop 9) then
      off :: compKeywordLoop fuel (off + 9) ((c :: t).drop 9)
    else compKeywordLoop fuel (off + 1) t

/-- The header validation at one `component` keyword occurrence: missing or
late `(` (including a missing `{`, since `indexOf` returns `-1` and the
comparison `parenOpen > -1` holds) reports a malformed header; otherwise a
missing or late `)` reports an unclosed parameter list. -/
def headerIssueAt (content : Str) (p : Nat) : Option Diagnostic :=
  let parenOpen := idxOfFrom content '(' p
  let braceOpen := idxOfFrom content lbrace p
  let malformed : Bool :=
    match parenOpen, braceOpen with
    | none, _ => true
    | some _, none => true
    | some po, some bo => po > bo
  if malformed then
    let pos := indexToLineCol content p
    some ⟨"error", "Malformed component header: missing parameter list `(...)` before `\x7b`.",
      pos.1, pos.2, some "Ensure you wrote: component Name($a: default, ...) \x7b ... \x7d"⟩
  else
    match parenOpen, braceOpen with
    | some po, some bo =>
      let parenClose := idxOfFrom content ')' po
      let bad : Bool := match parenClose with
        | none => true
        | some pc => pc > bo
      if bad then
        let pos := indexToLineCol content po
        some ⟨"error", "Malformed component header: missing closing `)` for parameter list.",
          pos.1, pos.2, some "Close the parameter list with `)` before the component body."⟩
      else none
    | _, _ => none

/-- All component-header validation diagnostics. -/
def compHeaderIssues (content : Str) : List Diagnostic :=
  (compKeywordLoop (content.length + 1) 0 content).filterMap (headerIssueAt content)

/-- The duplicate-parameter check of one component (the `seen` set grows in
iteration order; every repeated occurrence reports). -/
def dupParamLoop (content : Str) (compName : Str) (pos : Nat × Nat) :
    List Param → List Str → List Diagnostic
  | [], _ => []
  | p :: rest, seen =>
    (if p.name ∈ seen then
      [⟨"error", "Duplicate parameter \x27" ++ sOf p.name ++ "\x27 in component "
          ++ sOf compName ++ ".", pos.1, pos.2,
        some ("Remove or rename duplicate parameter \x27" ++ sOf p.name ++ "\x27.")⟩]
    else []) ++ dupParamLoop content compName pos rest (seen ++ [p.name])

/-- Duplicate-parameter diagnostics for a component, positioned at the first
occurrence of `component <name>` in the text (index 0 when absent). -/
def dupParamIssues (content : Str) (comp : ComponentDef) : List Diagnostic :=
  let headerIndex := (idxOfSub content ("component ".data ++ comp.name)).getD 0
  dupParamLoop content comp.name (indexToLineCol content headerIndex) comp.params []

/-- All `$name` tokens of a body in match order (`/\$([a-zA-Z0-9_-]+)/g`). -/
def varTokensLoop : Nat → Str → List Str
  | 0, _ => []
  | _ + 1, [] => []
  | fuel + 1, c :: rest =>
    if c = '$' then
      let name := rest.takeWhile isIdentChar
      if name.length = 0 then varTokensLoop fuel rest
      else name :: varTokensLoop fuel (rest.drop name.length)
    else varTokensLoop fuel rest

/-- Set-like deduplication keeping first-occurrence order (JavaScript `Set`
iteration order). -/
def dedupStrs : List Str → List Str → List Str
  | [], _ => []
  | x :: rest, seen =>
    if x ∈ seen then dedupStrs rest seen else x :: dedupStrs rest (seen ++ [x])

/-- Warnings for body variables not declared as parameters. -/
def varWarnIssues (content : Str) (comp : ComponentDef) : List Diagnostic :=
  (dedupStrs (varTokensLoop (comp.body.length + 1) comp.body) []).filterMap fun u =>
    if comp.params.any (fun p => p.name = u) then none
    else
      let idx := (idxOfSub comp.body ('$' :: u)).getD 0
      let pos := indexToLineCol content ((idxOfSub content comp.body).getD 0 + idx)
      some ⟨"warning", "Variable \x27$" ++ sOf u ++ "\x27 used in component \x27"
          ++ sOf comp.name ++ "\x27 but not declared as parameter.", pos.1, pos.2,
        some ("Declare $" ++ sOf u ++ " in the component parameters or remove its usage.")⟩

/-- Errors for `when` conditions whose variable is not a declared parameter.
The analyzer's regex lacks the trailing `\s*` of the evaluator's, which only
changes the cursor position inside whitespace (no match starts there). -/
def whenIssuesLoop (content : Str) (comp : ComponentDef) :
    Nat → Nat → Str → List Diagnostic
  | 0, _, _ => []
  | fuel + 1, off, rem =>
    match findWhenHeader rem with
    | none => []
    | some (s, v, _, _, len) =>
      (if comp.params.any (fun p => p.name = v) then []
       else
         let pos := indexToLineCol content ((idxOfSub content comp.body).getD 0 + off + s)
         [⟨"error", "when condition references unknown variable \x27$" ++ sOf v
             ++ "\x27 in component \x27" ++ sOf comp.name ++ "\x27.", pos.1, pos.2,
           some ("Either declare $" ++ sOf v ++ " in the component or fix the condition.")⟩])
        ++ whenIssuesLoop content comp fuel (off + s + len) (rem.drop (s + len))

/-- Strips one trailing semicolon (`replace(/;$/, '')`). -/
def dropTrailingSemi (l : Str) : Str :=
  match l.getLast? with
  | some c => if c = ';' then l.dropLast else l
  | none => l

/-- The per-rule checks of `checkRules`: a rule without `:` is malformed; a
rule whose value (after the first `:`, trailing `;` removed) is empty reports
an empty value. -/
def ruleIssues (content : Str) (comp : ComponentDef) (rule : Str) : List Diagnostic :=
  let ruleTrim := jsTrim rule
  let atRule := indexToLineCol content
    ((idxOfSub content comp.body).getD 0 + (idxOfSub comp.body ruleTrim).getD 0)
  if !(ruleTrim.contains ':') then
    [⟨"error", "Malformed CSS rule \x27" ++ sOf ruleTrim ++ "\x27 in component \x27"
        ++ sOf comp.name ++ "\x27.", atRule.1, atRule.2,
      some "Ensure rule format: property: value;"⟩]
  else
    let prop := jsTrim (ruleTrim.takeWhile (· ≠ ':'))
    let valAndSemi := jsTrim (ruleTrim.drop ((ruleTrim.takeWhile (· ≠ ':')).length + 1))
    let val := jsTrim (dropTrailingSemi valAndSemi)
    if val = [] then
      [⟨"error", "Empty value for property \x27" ++ sOf prop ++ "\x27 in component \x27"
          ++ sOf comp.name ++ "\x27.", atRule.1, atRule.2,
        some ("Provide a value or a default for variable used in \x27" ++ sOf prop ++ "\x27.")⟩]
    else []

mutual

/-- Preorder rule validation over the tree (`checkRules`). -/
def checkRulesNode (content : Str) (comp : ComponentDef) : Ast → List Diagnostic
  | .node _ rules children =>
    rules.flatMap (ruleIssues content comp) ++ checkRulesChildren content comp children

/-- Rule validation of the children, in document order. -/
def checkRulesChildren (content : Str) (comp : ComponentDef) : AstList → List Diagnostic
  | .nil => []
  | .cons child rest =>
    checkRulesNode content comp child ++ checkRulesChildren content comp rest

end

/-- Tree construction and rule validation of one component body; a thrown
`buildAst` error is caught and reported as a diagnostic. -/
def compAstIssues (content : Str) (comp : ComponentDef) : List Diagnostic :=
  match buildAst comp.body with
  | .error e =>
    let pos := indexToLineCol content ((idxOfSub content comp.body).getD 0)
    [⟨"error", "Failed building AST for component " ++ sOf comp.name ++ ": " ++ e,
      pos.1, pos.2, none⟩]
  | .ok ast => checkRulesNode content comp ast

/-- The instance checks: an unknown component is an error unless the file
defines no components at all (plain-CSS carve-out); instance properties not
matching a declared parameter warn. -/
def instanceIssues (content : Str) (components : List ComponentDef)
    (instances : List InstanceReq) : List Diagnostic :=
  instances.flatMap fun inst =>
    match components.find? (fun comp => comp.name = inst.componentName) with
    | none =>
      if components.isEmpty then []
      else
        let pos := indexToLineCol content ((idxOfSub content inst.rawBody).getD 0)
        [⟨"error", "Instance refers to unknown component \x27" ++ sOf inst.componentName
            ++ "\x27.", pos.1, pos.2,
          some ("Ensure component \x27" ++ sOf inst.componentName
            ++ "\x27 is defined before instantiating it.")⟩]
    | some comp =>
      (inst.props.map Prod.fst).filterMap fun propName =>
        if comp.params.any (fun p => p.name = propName) then none
        else
          let idx := (idxOfSub inst.rawBody ('$' :: propName)).getD 0
          let pos := indexToLineCol content ((idxOfSub content inst.rawBody).getD 0 + idx)
          some ⟨"warning", "Instance \x27" ++ sOf inst.componentName ++ "."
              ++ sOf inst.instanceName ++ "\x27 defines unknown prop \x27$"
              ++ sOf propName ++ "\x27.", pos.1, pos.2,
            some ("Remove or declare \x27$" ++ sOf propName
              ++ "\x27 in the component parameters.")⟩

/-- Severity rank for the final sort: errors before warnings. -/
def sevRank (d : Diagnostic) : Nat := if d.severity = "error" then 0 else 1

/-- The comparator `errors first, then line, then column` as a weak order. -/
def diagLE (a b : Diagnostic) : Bool :=
  sevRank a < sevRank b
    || (sevRank a = sevRank b && (a.line < b.line || (a.line = b.line && a.column ≤ b.column)))

/-- Stable insertion (ties keep original order, as V8's stable sort does). -/
def diagInsert (x : Diagnostic) : List Diagnostic → List Diagnostic
  | [] => [x]
  | y :: t => if diagLE x y then x :: y :: t else y :: diagInsert x t

/-- Stable sort of the diagnostics. -/
def sortDiags (l : List Diagnostic) : List Diagnostic :=
  l.foldr diagInsert []

/-- Embeds `analyzeContent(content)`: brace diagnostics, header validation,
per-component checks (duplicate parameters, undeclared variables, unknown
`when` variables, rule validation) and instance checks, sorted errors-first
then by position.  The `try` around the parser is dead in the embedding (the
parser is total), and `buildAst` failures are caught per component. -/
def analyzeContent (content : Str) : List Diagnostic :=
  let braces := scanBraces content
  let closeIssues := braces.2.map fun idx =>
    let pos := indexToLineCol content idx
    (⟨"error", "Unmatched closing \x27\x7d\x27 at line " ++ toString pos.1 ++ ", column "
        ++ toString pos.2 ++ ".", pos.1, pos.2,
      some "Remove the extra \x27\x7d\x27 or add the matching opening \x27\x7b\x27."⟩ : Diagnostic)
  let openIssues := braces.1.map fun idx =>
    let pos := indexToLineCol content idx
    (⟨"error", "Unclosed block starting at line " ++ toString pos.1 ++ ", column "
        ++ toString pos.2 ++ " (missing \x27\x7d\x27 ).", pos.1, pos.2,
      some "Add a closing \x27\x7d\x27 for the opened block."⟩ : Diagnostic)
  let headerIssues := compHeaderIssues content
  let components := parseComponentDefinition content
  let instances := parseComponentInstances content
  let compIssues := components.flatMap fun comp =>
    dupParamIssues content comp ++ varWarnIssues content comp
      ++ whenIssuesLoop content comp (comp.body.length + 1) 0 comp.body
      ++ compAstIssues content comp
  let instIssues := instanceIssues content components instances
  sortDiags (closeIssues ++ openIssues ++ headerIssues ++ compIssues ++ instIssues)

-- ----------------- normalizeCss -----------------

/-- First newline normalisation: `\r\n` pairs become `\n`. -/
def normNewlines1 : Str → Str
  | [] => []
  | [c] => [c]
  | c :: d :: rest =>
    if c = '\r' && d = '\n' then '\n' :: normNewlines1 rest
    else c :: normNewlines1 (d :: rest)

/-- Second newline normalisation: every remaining `\r` becomes `\n`. -/
def normNewlines2 (l : Str) : Str :=
  l.map fun c => if c = '\r' then '\n' else c

/-- The comment-removal scan `replace(/\/\*[\s\S]*?\*\//g, '')`: each `/*`
with a later `*/` is removed up to the first such terminator; a `/*` without
a terminator is left verbatim (no further match can start after it). -/
def stripCommentsScan : Nat → Str → Str
  | 0, l => l
  | _ + 1, [] => []
  | fuel + 1, c :: rest =>
    if c = '/' && strStarts "*".data rest then
      match idxOfSub (rest.drop 1) "*/".data with
      | some j => stripCommentsScan fuel ((rest.drop 1).drop (j + 2))
      | none => c :: rest
    else c :: stripCommentsScan fuel rest

/-- Embeds the exported `stripCssComments` (comment removal plus trim). -/
def stripCssComments (css : Str) : Str :=
  jsTrim (stripCommentsScan (css.length + 1) css)

/-- Removes trailing spaces and tabs of one line (`replace(/[ \t]+$/g, '')`). -/
def stripTrailingSpaceTab (line : Str) : Str :=
  (line.reverse.dropWhile (fun c => c = ' ' || c = '\t')).reverse

/-- Per-line trailing-whitespace removal (split on `\n`, strip, rejoin). -/
def stripLineTrailingWs (l : Str) : Str :=
  joinWith "\n".data ((splitOnChar '\n' l).map stripTrailingSpaceTab)

/-- Collapses runs of three or more newlines to two (`replace(/\n{3,}/g, '\n\n')`). -/
def collapseNLs : Nat → Str → Str
  | 0, l => l
  | _ + 1, [] => []
  | fuel + 1, c :: rest =>
    if c = '\n' then
      let run := rest.takeWhile (· = '\n')
      (if run.length + 1 ≥ 3 then "\n\n".data else '\n' :: run)
        ++ collapseNLs fuel (rest.drop run.length)
    else c :: collapseNLs fuel rest

/-- Index of the last occurrence of a character. -/
def lastIdxOf (c : Char) (l : Str) : Option Nat :=
  (idxOf c l.reverse).map fun i => l.length - 1 - i

/-- The replace `/\{\s*\n+/g → "{\n"`: an opening brace whose following
whitespace run contains a newline is rewritten to `{\n`, consuming the run up
to its last newline (the greedy `\s*` backtracks exactly there). -/
def fixOpenBrace : Nat → Str → Str
  | 0, l => l
  | _ + 1, [] => []
  | fuel + 1, c :: rest =>
    if c = lbrace then
      match lastIdxOf '\n' (rest.takeWhile isWs) with
      | some k => lbrace :: '\n' :: fixOpenBrace fuel (rest.drop (k + 1))
      | none => lbrace :: fixOpenBrace fuel rest
    else c :: fixOpenBrace fuel rest

/-- The replace `/\n+\s*\}/g → "\n}"`: a newline whose whitespace run ends
right before `}` is rewritten together with the run and the brace to `\n}`. -/
def fixCloseBrace : Nat → Str → Str
  | 0, l => l
  | _ + 1, [] => []
  | fuel + 1, c :: rest =>
    if c = '\n' && ((rest.drop ((rest.takeWhile isWs).length)).headD ' ' = rbrace) then
      '\n' :: rbrace :: fixCloseBrace fuel ((rest.drop ((rest.takeWhile isWs).length)).drop 1)
    else c :: fixCloseBrace fuel rest

/-- The replace `/;\n\s*\n\s*/g → ";\n  "`: a semicolon followed by a
whitespace run that starts with a newline and contains a second newline is
rewritten to `;\n` plus two spaces, consuming the whole run. -/
def fixSemiBlank : Nat → Str → Str
  | 0, l => l
  | _ + 1, [] => []
  | fuel + 1, c :: rest =>
    if c = ';' && (rest.headD ' ' = '\n')
        && (((rest.takeWhile isWs).drop 1).contains '\n') then
      ';' :: '\n' :: ' ' :: ' ' :: fixSemiBlank fuel (rest.drop ((rest.takeWhile isWs).length))
    else c :: fixSemiBlank fuel rest

/-- The replace `/\}\n\s*\n\s*\./g → "}\n\n."`: a closing brace followed by a
whitespace run with two newlines and then a `.` keeps exactly one blank line. -/
def fixBlockDot : Nat → Str → Str
  | 0, l => l
  | _ + 1, [] => []
  | fuel + 1, c :: rest =>
    if c = rbrace && (rest.headD ' ' = '\n')
        && (((rest.takeWhile isWs).drop 1).contains '\n')
        && ((rest.drop ((rest.takeWhile isWs).length)).headD ' ' = '.') then
      rbrace :: '\n' :: '\n' :: '.'
        :: fixBlockDot fuel ((rest.drop ((rest.takeWhile isWs).length)).drop 1)
    else c :: fixBlockDot fuel rest

/-- Embeds `normalizeCss(css)`: newline normalisation, comment removal,
per-line trailing-whitespace removal, blank-line collapsing, the four
block-local whitespace fixes, and final trim plus a single trailing newline
(empty input and all-whitespace results give the empty string). -/
def normalizeCss (css : Str) : Str :=
  if css = [] then []
  else
    let o1 := normNewlines2 (normNewlines1 css)
    let o2 := stripCommentsScan (o1.length + 1) o1
    let o3 := stripLineTrailingWs o2
    let o4 := collapseNLs (o3.length + 1) o3
    let o5 := fixCloseBrace (o4.length + 2) (fixOpenBrace (o4.length + 1) o4)
    let o6 := fixSemiBlank (o5.length + 1) o5
    let o7 := fixBlockDot (o6.length + 1) o6
    let t := jsTrim o7
    if t = [] then [] else t ++ "\n".data

-- ----------------- stripImportStatements -----------------

/-- Anchored match of `^\s*@import[^\n]*$` (multiline, case-insensitive): the
leading `\s*` may span blank lines, the tail runs to the end of the line. -/
def matchImportLineAt (l : Str) : Option Nat :=
  let w := l.takeWhile isWs
  let r := l.drop w.length
  if toLowerStr (r.take 7) = "@import".data then
    some (w.length + 7 + ((r.drop 7).takeWhile (· ≠ '\n')).length)
  else none

theorem matchImportLineAt_len_pos {l : Str} {len : Nat}
    (h : matchImportLineAt l = some len) : 1 ≤ len := by
  simp only [matchImportLineAt] at h
  split at h
  · injection h with h2
    omega
  · exact Option.noConfusion h

/-- The line-anchored global replace of `stripImportStatements`: matches can
only start at the beginning of the text or after a newline; matched spans are
removed (the line's terminating newline stays). -/
def stripImportsScan : Nat → Bool → Str → Str
  | 0, _, l => l
  | _ + 1, _, [] => []
  | fuel + 1, atStart, c :: rest =>
    if atStart then
      match matchImportLineAt (c :: rest) with
      | some len => stripImportsScan fuel false ((c :: rest).drop len)
      | none => c :: stripImportsScan fuel (c = '\n') rest
    else c :: stripImportsScan fuel (c = '\n') rest

/-- Embeds `stripImportStatements(content)` (empty input gives empty output;
the result is trimmed). -/
def stripImportStatements (content : Str) : Str :=
  if content = [] then []
  else jsTrim (stripImportsScan (content.length + 1) true content)

-- ----------------- Import resolution -----------------

/-- Boolean suffix test. -/
def strEnds (suf l : Str) : Bool := strStarts suf.reverse l.reverse

/-- Anchored match of `IMPORT_REGEX` (`@import\s+['"]([^'"]+)['"]\s*;?`,
case-sensitive; the closing quote need not match the opening one); returns
the path group and the match length. -/
def matchImportAt (l : Str) : Option (Str × Nat) :=
  if strStarts "@import".data l then
    let r1 := l.drop 7
    let ws1 := r1.takeWhile isWs
    if ws1.length = 0 then none
    else
      let r2 := r1.drop ws1.length
      match r2 with
      | q1 :: r3 =>
        if q1 = quoteS || q1 = quoteD then
          let path := r3.takeWhile (fun c => c ≠ quoteS && c ≠ quoteD)
          if path.length = 0 then none
          else
            let r4 := r3.drop path.length
            match r4 with
            | q2 :: r5 =>
              if q2 = quoteS || q2 = quoteD then
                let ws2 := r5.takeWhile isWs
                let r6 := r5.drop ws2.length
                let semiLen : Nat := match r6 with
                  | s :: _ => if s = ';' then 1 else 0
                  | [] => 0
                some (path, 7 + ws1.length + 1 + path.length + 1 + ws2.length + semiLen)
              else none
            | [] => none
        else none
      | [] => none
  else none

/-- Leftmost `IMPORT_REGEX` match: relative start, path group, match length. -/
def findImport : Str → Option (Nat × Str × Nat)
  | [] => none
  | l@(_ :: t) =>
    match matchImportAt l with
    | some (p, len) => some (0, p, len)
    | none => (findImport t).map fun x => (x.1 + 1, x.2)

/-- The in-memory file system standing in for `fs.readFile` (the external file
reader collaborator): association of paths to contents. -/
abbrev FS := List (String × String)

/-- File lookup; `none` models the `ENOENT` rejection. -/
def fsRead (fs : FS) (p : String) : Option String :=
  match fs with
  | [] => none
  | (k, v) :: rest => if k = p then some v else fsRead rest p

/-- Modelled from Node's `path.dirname` (external collaborator) for relative
POSIX paths: the text before the last `/`, or `.` when there is none. -/
def dirname (p : String) : String :=
  match lastIdxOf '/' p.data with
  | some i => String.mk (p.data.take i)
  | none => "."

/-- Modelled from Node's `path.resolve` (external collaborator) for an
already-normalised relative path against a relative base directory: the join
`base/rel`.  The constant working-directory prefix that `path.resolve` would
add cancels out of all lookups and is omitted. -/
def resolvePath (base rel : String) : String := base ++ "/" ++ rel

/-- Embeds `resolveImportsRecursively(content, baseDir, visited)` together
with the module-global `IMPORT_REGEX.lastIndex` that the source shares across
the recursion: the loop scans `result` from `lastIndex`; a directive whose
resolved path was already visited is replaced (first occurrence of the matched
text) by the empty string with no warning; an unreadable file is replaced by
the empty string with a warning; a readable file is first resolved recursively
— the recursive call starting its scan at the caller's `lastIndex` and
resetting it to `0` on return — and then spliced in.  `fuel` bounds the loop
so the function is total; `none` models non-termination and never occurs for
the inputs considered. -/
def resolveImportsFuel (fs : FS) : Nat → String → Str → Nat → List String → List LogEntry →
    Option (Str × List String × List LogEntry)
  | 0, _, _, _, _, _ => none
  | fuel + 1, baseDir, result, lastIndex, visited, warns =>
    match findImport (result.drop lastIndex) with
    | none => some (result, visited, warns)
    | some (rel, rawPath, mlen) =>
      let start := lastIndex + rel
      let matched := (result.drop start).take mlen
      let ip0 := jsTrim rawPath
      let importPath := if strEnds ".axcss".data ip0 then ip0 else ip0 ++ ".axcss".data
      let fullPath := resolvePath baseDir (String.mk importPath)
      if fullPath ∈ visited then
        resolveImportsFuel fs fuel baseDir (replaceFirstSubst result matched [])
          (start + mlen) visited warns
      else
        match fsRead fs fullPath with
        | some contents =>
          match resolveImportsFuel fs fuel (dirname fullPath) contents.data (start + mlen)
              (visited ++ [fullPath]) warns with
          | none => none
          | some (imported, visited2, warns2) =>
            resolveImportsFuel fs fuel baseDir (replaceFirstSubst result matched imported)
              0 visited2 warns2
        | none =>
          resolveImportsFuel fs fuel baseDir (replaceFirstSubst result matched [])
            (start + mlen) (visited ++ [fullPath])
            (warns ++ [⟨"warning", " Failed to import \x22" ++ String.mk importPath
              ++ "\x22: ENOENT"⟩])

-- ----------------- processFile -----------------

/-- Formats one diagnostic as `message (line L:C)`. -/
def fmtIssue (d : Diagnostic) : String :=
  d.message ++ " (line " ++ toString d.line ++ ":" ++ toString d.column ++ ")"

/-- Newline join of formatted messages. -/
def joinNLStr : List String → String
  | [] => ""
  | [x] => x
  | x :: y :: rest => x ++ "\n" ++ joinNLStr (y :: rest)

/-- The instance loop of `processFile`: a missing component skips the instance
with a warning; generated CSS is comment-stripped and normalised, labelled
with a `/* Instance: Component.instance */` comment when nonempty, and an
empty result warns instead. -/
def pfLoop (filePath : String) (components : List (Str × ComponentDef)) :
    List InstanceReq → List Str → Str → List LogEntry → Except String (Str × List LogEntry)
  | [], _, gen, logs => .ok (gen, logs)
  | inst :: rest, used, gen, logs =>
    match mapGet components inst.componentName with
    | none =>
      pfLoop filePath components rest used gen (logs ++ [⟨"warning",
        " Component \x22" ++ sOf inst.componentName ++ "\x22 not found for instance \x22"
          ++ sOf inst.instanceName ++ "\x22 in " ++ filePath ++ " — skipping."⟩])
    | some comp =>
      let unique := freshClassName (toLowerStr inst.instanceName) used
      match processComponentInstance comp inst unique with
      | .error e => .error e
      | .ok (css, ilogs) =>
        let instanceCSS := normalizeCss (stripCssComments css)
        if instanceCSS ≠ [] then
          pfLoop filePath components rest (used ++ [unique])
            (gen ++ "/* Instance: ".data ++ inst.componentName ++ '.' :: inst.instanceName
              ++ " */\n".data ++ instanceCSS ++ "\n".data)
            (logs ++ ilogs)
        else
          pfLoop filePath components rest (used ++ [unique]) gen
            (logs ++ ilogs ++ [⟨"warning", " Generated CSS empty for " ++ sOf comp.name
              ++ "." ++ sOf inst.instanceName ++ " — check variables / when conditions."⟩])

/-- Embeds `processFile(filePath)`: read the file; run the analyzer on the
raw text and fail with the aggregated `Syntax errors found` message when any
error-severity diagnostic exists (warnings are logged); otherwise compute the
preserved plain CSS (strip component/instance blocks, `@import` lines and
comments, then normalise), resolve imports recursively over the re-read raw
text, parse definitions (later definitions overwriting earlier ones in the
`Map`) and instances from the resolved text, generate the labelled instance
blocks, and return the normalisation of plain CSS plus generated CSS with any
leftover `@import` lines removed. -/
def processFile (fs : FS) (filePath : String) (fuel : Nat) :
    Except String (String × List LogEntry) :=
  match fsRead fs filePath with
  | none => .error "ENOENT"
  | some content0 =>
    let content := content0.data
    let issues := analyzeContent content
    let fatal := issues.filter (fun i => i.severity = "error")
    if fatal ≠ [] then
      .error ("Syntax errors found:\n" ++ joinNLStr (fatal.map fmtIssue))
    else
      let warnLogs := (issues.filter (fun i => i.severity = "warning")).map
        fun w => (⟨"warning", fmtIssue w⟩ : LogEntry)
      let plainCSS := normalizeCss (stripCssComments
        (stripImportStatements (stripComponentAndInstanceBlocks content)))
      match resolveImportsFuel fs fuel (dirname filePath) content 0 [] [] with
      | none => .error "import resolution fuel exhausted"
      | some (resolved, _, importWarns) =>
        let components := (parseComponentDefinition resolved).foldl
          (fun m d => mapSet m d.name d) []
        let instances := parseComponentInstances resolved
        match pfLoop filePath components instances [] [] (warnLogs ++ importWarns) with
        | .error e => .error e
        | .ok (generated, logs) =>
          let combined := joinWith "\n\n".data ([plainCSS, generated].filter (· ≠ []))
          .ok (String.mk (normalizeCss (stripImportStatements combined)), logs)

-- ----------------- General lemmas about the embedded operations -----------------

theorem mapGet_mapSet_ne {α : Type} (m : List (Str × α)) {k k' : Str} (v : α) (h : k ≠ k') :
    mapGet (mapSet m k v) k' = mapGet m k' := by
  induction m with
  | nil => simp [mapSet, mapGet, h]
  | cons kv rest ih =>
    obtain ⟨k0, v0⟩ := kv
    simp only [mapSet]
    by_cases hk : k0 = k
    · subst hk
      simp [mapGet, h]
    · simp only [if_neg hk, mapGet]
      by_cases hk' : k0 = k'
      · simp [hk']
      · simp [hk', ih]

/-- The step function of the `buildMergedProps` fold. -/
def mergeStep (instanceProps : List (Str × Str)) (componentName instanceName : Str)
    (acc : List (Str × Str) × List LogEntry) (p : Param) :
    List (Str × Str) × List LogEntry :=
  match mapGet instanceProps p.name with
  | some v => (mapSet acc.1 p.name v, acc.2)
  | none =>
    match p.defaultValue with
    | some d => (mapSet acc.1 p.name d, acc.2)
    | none => (acc.1, acc.2 ++ [⟨"error",
        "Default value not defined for $" ++ String.mk p.name ++ " in instance "
          ++ String.mk componentName ++ "." ++ String.mk instanceName⟩])

theorem buildMergedProps_eq_fold (componentParams : List Param)
    (instanceProps : List (Str × Str)) (cn inn : Str) :
    buildMergedProps componentParams instanceProps cn inn =
      componentParams.foldl (mergeStep instanceProps cn inn) ([], []) := rfl

theorem mergeFold_log_mono (instanceProps : List (Str × Str)) (cn inn : Str)
    (params : List Param) (acc : List (Str × Str) × List LogEntry) {e : LogEntry}
    (h : e ∈ acc.2) :
    e ∈ (params.foldl (mergeStep instanceProps cn inn) acc).2 := by
  induction params generalizing acc with
  | nil => exact h
  | cons q rest ih =>
    refine ih _ ?_
    simp only [mergeStep]
    cases mapGet instanceProps q.name with
    | some v => exact h
    | none =>
      cases q.defaultValue with
      | some d => exact h
      | none => simp [h]

theorem mergeFold_lookup_none (instanceProps : List (Str × Str)) (cn inn : Str)
    (params : List Param) (acc : List (Str × Str) × List LogEntry) {name : Str}
    (hnot : name ∉ params.map Param.name)
    (h : mapGet acc.1 name = none) :
    mapGet (params.foldl (mergeStep instanceProps cn inn) acc).1 name = none := by
  induction params generalizing acc with
  | nil => exact h
  | cons q rest ih =>
    simp only [List.map_cons, List.mem_cons] at hnot
    push_neg at hnot
    refine ih _ (fun hm => hnot.2 hm) ?_
    simp only [mergeStep]
    cases mapGet instanceProps q.name with
    | some v => simpa [mapGet_mapSet_ne _ _ (fun he => hnot.1 he.symm)] using h
    | none =>
      cases q.defaultValue with
      | some d => simpa [mapGet_mapSet_ne _ _ (fun he => hnot.1 he.symm)] using h
      | none => exact h

/-- A declared parameter with neither an instance value nor a default is left
out of the merged environment entirely, and an error naming the component and
the instance is logged; execution continues. -/
theorem buildMergedProps_missing {params : List Param} {props : List (Str × Str)}
    {cn inn : Str} {p : Param}
    (hmem : p ∈ params)
    (hnodup : (params.map Param.name).Nodup)
    (hdef : p.defaultValue = none)
    (hprop : mapGet props p.name = none) :
    mapGet (buildMergedProps params props cn inn).1 p.name = none ∧
      (⟨"error", "Default value not defined for $" ++ String.mk p.name ++ " in instance "
        ++ String.mk cn ++ "." ++ String.mk inn⟩ : LogEntry)
        ∈ (buildMergedProps params props cn inn).2 := by
  rw [buildMergedProps_eq_fold]
  -- generalized over the accumulator
  suffices H : ∀ (params : List Param) (acc : List (Str × Str) × List LogEntry),
      p ∈ params → (params.map Param.name).Nodup →
      mapGet acc.1 p.name = none →
      mapGet ((params.foldl (mergeStep props cn inn) acc)).1 p.name = none ∧
        (⟨"error", "Default value not defined for $" ++ String.mk p.name ++ " in instance "
          ++ String.mk cn ++ "." ++ String.mk inn⟩ : LogEntry)
          ∈ ((params.foldl (mergeStep props cn inn) acc)).2 by
    exact H params ([], []) hmem hnodup rfl
  intro params
  induction params with
  | nil => intro acc h; exact absurd h (List.not_mem_nil p)
  | cons q rest ih =>
    intro acc hmem' hnodup' hacc
    simp only [List.map_cons, List.nodup_cons] at hnodup'
    rcases List.mem_cons.mp hmem' with hq | hrest
    · subst hq
      have hstep : mergeStep props cn inn acc p =
          (acc.1, acc.2 ++ [⟨"error",
            "Default value not defined for $" ++ String.mk p.name ++ " in instance "
              ++ String.mk cn ++ "." ++ String.mk inn⟩]) := by
        simp [mergeStep, hprop, hdef]
      simp only [List.foldl_cons, hstep]
      constructor
      · exact mergeFold_lookup_none props cn inn rest _ hnodup'.1 hacc
      · exact mergeFold_log_mono props cn inn rest _ (by simp)
    · have hne : q.name ≠ p.name := by
        intro he
        exact hnodup'.1 (he ▸ List.mem_map_of_mem Param.name hrest)
      simp only [List.foldl_cons]
      refine ih _ hrest hnodup'.2 ?_
      simp only [mergeStep]
      cases mapGet props q.name with
      | some v => simpa [mapGet_mapSet_ne _ _ hne] using hacc
      | none =>
        cases q.defaultValue with
        | some d => simpa [mapGet_mapSet_ne _ _ hne] using hacc
        | none => exact hacc

theorem head?_dropWhile {p : Char → Bool} {l : Str} {c : Char}
    (h : (l.dropWhile p).head? = some c) : p c = false := by
  induction l with
  | nil => simp [List.dropWhile] at h
  | cons d rest ih =>
    simp only [List.dropWhile] at h
    cases hp : p d with
    | true => rw [hp] at h; exact ih (by simpa using h)
    | false =>
      rw [hp] at h
      simp only [List.head?, Option.some.injEq] at h
      exact h ▸ hp

theorem dropWhile_eq_self {p : Char → Bool} {l : Str}
    (h : ∀ ch ∈ l, p ch = false) : l.dropWhile p = l := by
  cases l with
  | nil => rfl
  | cons c rest => simp [List.dropWhile, h c (by simp)]

theorem jsTrim_no_ws {l : Str} (h : ∀ ch ∈ l, isWs ch = false) : jsTrim l = l := by
  unfold jsTrim
  rw [dropWhile_eq_self h, dropWhile_eq_self (fun ch hm => h ch (by simpa using hm))]
  simp

theorem jsTrim_getLast_not_ws {l : Str} {c : Char}
    (h : (jsTrim l).getLast? = some c) : isWs c = false := by
  unfold jsTrim at h
  rw [List.getLast?_reverse] at h
  exact head?_dropWhile h

theorem takeWhile_append_all {p : Char → Bool} {a : Str} (rest : Str)
    (h : ∀ ch ∈ a, p ch = true) :
    (a ++ rest).takeWhile p = a ++ rest.takeWhile p := by
  induction a with
  | nil => rfl
  | cons c t ih =>
    have hc := h c (by simp)
    simp only [List.cons_append, List.takeWhile, hc]
    exact congrArg (c :: ·) (ih (fun ch hm => h ch (by simp [hm])))

theorem takeWhile_head_false {p : Char → Bool} {c : Char} (rest : Str)
    (h : p c = false) : (c :: rest).takeWhile p = [] := by
  simp [List.takeWhile, h]

-- ----------------- Variable-substitution cleanup lemmas -----------------

/-- Holds when the text contains a `$` immediately followed by an identifier
character — a literal `$name` variable token. -/
def hasVarToken : Str → Bool
  | c :: d :: rest => (c = '$' && isIdentChar d) || hasVarToken (d :: rest)
  | _ => false

theorem stripVarTokens_head_not_ident :
    ∀ (fuel : Nat) (l : Str),
      (∀ c, l.head? = some c → isIdentChar c = false) →
      (∀ c', (stripVarTokens fuel l).head? = some c' → isIdentChar c' = false) := by
  intro fuel
  induction fuel with
  | zero => intro l _ c' h'; simp [stripVarTokens] at h'
  | succ fuel ih =>
    intro l hl c' h'
    cases l with
    | nil => simp [stripVarTokens] at h'
    | cons c rest =>
      simp only [stripVarTokens] at h'
      split at h'
      · rename_i hcond
        refine ih _ ?_ c' h'
        intro d hd
        exact head?_dropWhile hd
      · simp only [List.head?, Option.some.injEq] at h'
        exact h' ▸ hl c rfl

theorem hasVarToken_stripVarTokens (fuel : Nat) :
    ∀ l : Str, hasVarToken (stripVarTokens fuel l) = false := by
  induction fuel with
  | zero => intro l; simp [stripVarTokens, hasVarToken]
  | succ fuel ih =>
    intro l
    cases l with
    | nil => simp [stripVarTokens, hasVarToken]
    | cons c rest =>
      simp only [stripVarTokens]
      split
      · exact ih _
      · rename_i hcond
        cases hs : stripVarTokens fuel rest with
        | nil => simp [hasVarToken]
        | cons d s' =>
          simp only [hasVarToken, Bool.or_eq_false_iff, Bool.and_eq_false_iff]
          constructor
          · by_cases hc : c = '$'
            · subst hc
              right
              have hhead : ∀ x, rest.head? = some x → isIdentChar x = false := by
                intro x hx
                cases rest with
                | nil => simp at hx
                | cons r0 rt =>
                  simp only [List.head?, Option.some.injEq] at hx
                  subst hx
                  by_contra hid
                  exact hcond (by simp [Bool.not_eq_false] at hid ⊢; exact hid)
              have := stripVarTokens_head_not_ident fuel rest hhead d (by simp [hs])
              exact this
            · left; simpa using hc
          · have := ih rest
            rw [hs] at this
            exact this

-- ----------------- Balanced-brace lemmas -----------------

/-- Depth-checking balance scan: every closing brace finds an open one and the
final depth is zero. -/
def isBalancedFrom (d : Nat) : Str → Bool
  | [] => d = 0
  | c :: rest =>
    if c = lbrace then isBalancedFrom (d + 1) rest
    else if c = rbrace then decide (d ≠ 0) && isBalancedFrom (d - 1) rest
    else isBalancedFrom d rest

theorem findClose_of_balanced {inner : Str} :
    ∀ {d : Nat} (rest : Str), isBalancedFrom d inner = true →
      findClose (inner ++ rbrace :: rest) (d + 1) = some inner.length := by
  induction inner with
  | nil =>
    intro d rest h
    simp only [isBalancedFrom, decide_eq_true_eq] at h
    subst h
    have hlb : rbrace ≠ lbrace := by decide
    simp [findClose, hlb]
  | cons c t ih =>
    intro d rest h
    simp only [isBalancedFrom] at h
    by_cases hc : c = lbrace
    · subst hc
      rw [if_pos rfl] at h
      have h2 := ih (d := d + 1) rest h
      simp [findClose, h2]
    · rw [if_neg hc] at h
      by_cases hc2 : c = rbrace
      · subst hc2
        rw [if_pos rfl] at h
        simp only [Bool.and_eq_true, decide_eq_true_eq] at h
        obtain ⟨hd, hbal⟩ := h
        have h3 : d + 1 - 1 = (d - 1) + 1 := by omega
        have h2 := ih (d := d - 1) rest hbal
        simp [findClose, (by decide : ¬ (rbrace = lbrace)), (by omega : ¬ (d + 1 = 1)), h3, h2, hd]
      · rw [if_neg hc2] at h
        have h2 := ih (d := d) rest h
        simp [findClose, hc, hc2, h2]

theorem get?_append_cons (pre : Str) (c : Char) (x : Str) :
    (pre ++ c :: x).get? pre.length = some c := by
  induction pre with
  | nil => rfl
  | cons d t ih => simpa using ih

theorem drop_append_cons (pre : Str) (c : Char) (x : Str) :
    (pre ++ c :: x).drop (pre.length + 1) = x := by
  have : pre.length + 1 = (pre ++ [c]).length := by simp
  rw [this]
  have : pre ++ c :: x = (pre ++ [c]) ++ x := by simp
  rw [this, List.drop_left]

/-- Balanced-brace extraction: for a block whose inner text is brace-balanced,
`extractBlock` starting at the opening brace returns exactly the inner text
and the index one past the matching close — nested blocks inside `inner`
never truncate the capture. -/
theorem extractBlock_balanced (pre inner rest : Str) (h : isBalancedFrom 0 inner = true) :
    extractBlock (pre ++ lbrace :: (inner ++ rbrace :: rest)) pre.length =
      (some inner, pre.length + inner.length + 2) := by
  unfold extractBlock
  rw [get?_append_cons, if_pos rfl, drop_append_cons]
  rw [findClose_of_balanced rest h]
  simp only [List.take_left, Prod.mk.injEq]
  refine ⟨by trivial, by omega⟩

theorem idxOf_eq_none {c : Char} {l : Str} (h : c ∉ l) : idxOf c l = none := by
  induction l with
  | nil => rfl
  | cons d rest ih =>
    simp only [List.mem_cons, not_or] at h
    simp only [idxOf, if_neg (fun he => h.1 (Eq.symm he)), ih h.2, Option.map_none']

theorem parseCompLoop_no_brace : ∀ (fuel : Nat) (content : Str),
    lbrace ∉ content → parseCompLoop fuel content = [] := by
  intro fuel
  induction fuel with
  | zero => intro content _; rfl
  | succ fuel ih =>
    intro content h
    cases hf : findCompHeader content with
    | none => simp [parseCompLoop, hf]
    | some x =>
      obtain ⟨s, n, p, len⟩ := x
      have hd : lbrace ∉ content.drop (s + len) := fun hm => h (List.drop_subset _ _ hm)
      have hsplit : splitAtChar lbrace (content.drop (s + len)) = none := by
        simp [splitAtChar, idxOf_eq_none hd]
      simp only [parseCompLoop, hf, hsplit]
      exact ih _ hd

-- ----------------- Definitions used by the claim statements -----------------

/-- An explicit `when $v OP lit { blk }` construct with single blanks between
the tokens, used to state the `when`-evaluation property. -/
def whenConstruct (v op lit blk : Str) : Str :=
  'w' :: 'h' :: 'e' :: 'n' :: ' ' :: '$' ::
    (v ++ ' ' :: (op ++ ' ' :: (lit ++ ' ' :: lbrace :: (blk ++ [rbrace]))))

/-- The import-path completion of `resolveImportsRecursively`: trim the raw
path and append `.axcss` unless it already ends with it. -/
def importPathOf (rawPath : Str) : Str :=
  let ip0 := jsTrim rawPath
  if strEnds ".axcss".data ip0 then ip0 else ip0 ++ ".axcss".data

/-- Fixture: a component with a defaultless parameter and an instance that
does not supply it. -/
def fs1C1 : FS :=
  [("p/a.axcss", "component W($c) \x7b .r \x7b color: $c; \x7d \x7d\nW.i \x7b \x7d")]

/-- Fixture: a file that is a single unmatched closing brace. -/
def fs2C2 : FS := [("p/f.axcss", "\x7d")]

/-- Fixture: plain CSS beside a component and an instance of it. -/
def fsC4 : FS :=
  [("p/b.axcss",
    ".plain \x7b a: b; \x7d\ncomponent Box($w: 10px) \x7b .root \x7b width: $w; \x7d \x7d\nBox.small \x7b $w: 5px; \x7d")]

/-- Fixture: entry file of the cyclic import pair. -/
def cssA5 : String :=
  "@import \x22B\x22;\ncomponent CA() \x7b .x \x7b color: red; \x7d \x7d\nCA.i \x7b \x7d"

/-- Fixture: second file of the cyclic import pair, importing the first back. -/
def cssB5 : String :=
  "@import \x22A\x22;\ncomponent CB() \x7b .y \x7b color: blue; \x7d \x7d"

/-- Fixture: the cyclic-import file system. -/
def fs5 : FS := [("d/A.axcss", cssA5), ("d/B.axcss", cssB5)]

/-- Fixture: a local `Btn` definition written before an `@import` that pulls
in another `Btn` definition. -/
def fsC6 : FS :=
  [("d/M.axcss",
    "component Btn() \x7b .r \x7b color: blue; \x7d \x7d\n@import \x22L\x22;\nBtn.b \x7b \x7d"),
   ("d/L.axcss", "component Btn() \x7b .r \x7b color: red; \x7d \x7d")]

/-- Fixture: the same pair with the `@import` written before the local
definition. -/
def fsC6i : FS :=
  [("d/N.axcss",
    "@import \x22L\x22;\ncomponent Btn() \x7b .r \x7b color: blue; \x7d \x7d\nBtn.b \x7b \x7d"),
   ("d/L.axcss", "component Btn() \x7b .r \x7b color: red; \x7d \x7d")]

/-- Fixture: a well-formed definition with a nested rule block followed by a
malformed one whose block never closes. -/
def strC9 : Str :=
  "component A() \x7b .x \x7b c: d; \x7d \x7d component Bad() \x7b e".data

/-- Fixture: a component whose parameter `$m` has no default, with a `when`
condition on `$m` and a rule using `$m`. -/
def compK10 : ComponentDef :=
  ⟨"K".data, [⟨"m".data, none⟩],
    "when $m == undefined \x7b .u \x7b a: b; \x7d \x7d .r \x7b c: $m; \x7d".data⟩

/-- Fixture: an instance of `K` supplying no properties. -/
def instK10 : InstanceReq := ⟨"K".data, "j".data, [], []⟩

/-- Fixture: a component whose `$m` has no default and whose `$v` will be
instantiated with a value containing an unmatched opening brace. -/
def compC10x : ComponentDef :=
  ⟨"P".data, [⟨"m".data, none⟩, ⟨"v".data, none⟩], ".r \x7b q: $v; \x7d".data⟩

/-- Fixture: an instance of `P` leaving `$m` unsupplied and giving `$v` the
value `a \x7b b` — a value the property pattern `[^;]+` does parse. -/
def instC10x : InstanceReq :=
  ⟨"P".data, "i".data, [("v".data, "a \x7b b".data)], "$v: a \x7b b; \x7d".data⟩

/-- Fixture: source text from which `compC10x`/`instC10x` parse. -/
def srcC10x : Str :=
  "component P($m, $v) \x7b .r \x7b q: $v; \x7d \x7d\nP.i \x7b $v: a \x7b b; \x7d \x7d".data

-- ----------------- when-construct evaluation lemmas -----------------

theorem whenLoop_nil (props : List (Str × Str)) (fuel : Nat) : whenLoop props fuel [] = [] := by
  cases fuel with
  | zero => rfl
  | succ f => simp [whenLoop, findWhenHeader]

theorem matchWhenHeaderAt_construct (v op lit blk : Str)
    (hv0 : v ≠ []) (hv : ∀ ch ∈ v, isIdentChar ch = true)
    (hop : op = "==".data ∨ op = "!=".data)
    (hl0 : lit ≠ []) (hl : ∀ ch ∈ lit, (!(isWs ch) && decide (ch ≠ lbrace)) = true) :
    matchWhenHeaderAt (whenConstruct v op lit blk) =
      some (v, op, lit, 11 + v.length + lit.length) := by
  have hl2 : ∀ ch ∈ lit, ((!(isWs ch)) && !(decide (ch = lbrace))) = true := by
    intro ch hm
    have h := hl ch hm
    rwa [show (decide (ch ≠ lbrace)) = !decide (ch = lbrace) from decide_not] at h
  obtain ⟨lc, lt, hve⟩ : ∃ c t, lit = c :: t := by
    cases lit with
    | nil => exact absurd rfl hl0
    | cons c t => exact ⟨c, t, rfl⟩
  subst hve
  have hlc := hl lc (by simp)
  simp only [Bool.and_eq_true, Bool.not_eq_true', decide_eq_true_eq] at hlc
  have c1 : isWs ' ' = true := by decide
  have c2 : isWs '$' = false := by decide
  have c3 : isWs '=' = false := by decide
  have c4 : isWs '!' = false := by decide
  have hwlb : isWs lbrace = false := by decide
  have hidlb : isIdentChar lbrace = false := by decide
  have htkv : ∀ (x : Str), (v ++ ' ' :: x).takeWhile isIdentChar = v := by
    intro x
    rw [takeWhile_append_all _ hv, takeWhile_head_false _ (by decide)]
    simp
  have htkl : ∀ (x : Str), ((lc :: lt) ++ ' ' :: x).takeWhile
      (fun c => !(isWs c) && !(decide (c = lbrace))) = lc :: lt := by
    intro x
    rw [takeWhile_append_all _ hl2, takeWhile_head_false _ (by decide)]
    simp
  have htw0 : ∀ (x : Str), List.takeWhile isWs ((lc :: lt) ++ x) = [] := by
    intro x
    simp [List.takeWhile, hlc.1]
  have htklt : ∀ (x : Str), (lt ++ ' ' :: x).takeWhile
      (fun c => !(isWs c) && !(decide (c = lbrace))) = lt := by
    intro x
    rw [takeWhile_append_all _ (fun ch hm => hl2 ch (by simp [hm])),
      takeWhile_head_false _ (by decide)]
    simp
  rcases hop with rfl | rfl
  · simp only [whenConstruct, matchWhenHeaderAt]
    simp [strStarts, htkv, htkl, htw0, List.drop_left, hv0, hl0, c1, c2, c3, c4,
      hwlb, hidlb, hlc.1, hlc.2, htklt]
    omega
  · simp only [whenConstruct, matchWhenHeaderAt]
    simp [strStarts, htkv, htkl, htw0, List.drop_left, hv0, hl0, c1, c2, c3, c4,
      hwlb, hidlb, hlc.1, hlc.2, htklt]
    omega

theorem findWhenHeader_construct (v op lit blk : Str)
    (hv0 : v ≠ []) (hv : ∀ ch ∈ v, isIdentChar ch = true)
    (hop : op = "==".data ∨ op = "!=".data)
    (hl0 : lit ≠ []) (hl : ∀ ch ∈ lit, (!(isWs ch) && decide (ch ≠ lbrace)) = true) :
    findWhenHeader (whenConstruct v op lit blk) =
      some (0, v, op, lit, 11 + v.length + lit.length) := by
  have hm := matchWhenHeaderAt_construct v op lit blk hv0 hv hop hl0 hl
  rw [whenConstruct] at hm ⊢
  simp [findWhenHeader, hm]

theorem whenConstruct_split (v op lit blk : Str) :
    whenConstruct v op lit blk =
      ('w' :: 'h' :: 'e' :: 'n' :: ' ' :: '$' ::
        (v ++ ' ' :: (op ++ ' ' :: (lit ++ [' '])))) ++ lbrace :: (blk ++ [rbrace]) := by
  simp [whenConstruct]


-- ----------------- Claim theorems -----------------

/-- C1: corrected.  A declared parameter with neither an instance-supplied
value nor a component default is not a fatal error: `buildMergedProps` logs
the user-facing error naming the component and instance, leaves the parameter
out of the merged environment, and execution continues (the counterexample
shows the compile still emitting CSS for such a file). -/
theorem C1_missing_param_logs_error_and_omits {params : List Param}
    {props : List (Str × Str)} {cn inn : Str} {p : Param}
    (hmem : p ∈ params) (hnodup : (params.map Param.name).Nodup)
    (hdef : p.defaultValue = none) (hprop : mapGet props p.name = none) :
    mapGet (buildMergedProps params props cn inn).1 p.name = none ∧
      (⟨"error", "Default value not defined for $" ++ String.mk p.name ++ " in instance "
        ++ String.mk cn ++ "." ++ String.mk inn⟩ : LogEntry)
        ∈ (buildMergedProps params props cn inn).2 :=
  buildMergedProps_missing hmem hnodup hdef hprop

/-- C1 witness: the property at the concrete component `W($c)` and instance
`W.i` that supplies nothing. -/
theorem C1_missing_param_witness :
    mapGet (buildMergedProps [⟨"c".data, none⟩] [] "W".data "i".data).1 "c".data = none ∧
      (⟨"error", "Default value not defined for $" ++ String.mk "c".data ++ " in instance "
        ++ String.mk "W".data ++ "." ++ String.mk "i".data⟩ : LogEntry)
        ∈ (buildMergedProps [⟨"c".data, none⟩] [] "W".data "i".data).2 :=
  C1_missing_param_logs_error_and_omits (List.mem_singleton.mpr rfl) (by decide) rfl rfl

/-- C1 counterexample: a file whose only instance leaves `$c` without a value
still compiles to CSS (the declaration is emitted with an empty value) and the
missing value surfaces only as an error log entry, not as a failure. -/
theorem C1_compile_succeeds_despite_missing_param :
    processFile fs1C1 "p/a.axcss" 10 =
      .ok (".i .r \x7b\n  color:;\n\x7d\n",
        [⟨"error", "Default value not defined for $c in instance W.i"⟩]) := by
  rfl

/-- C2: confirmed.  Whenever the analyzer reports at least one error-severity
diagnostic on the file's raw text, `processFile` fails with the single
aggregated message (newline-joined `message (line L:C)` entries) and produces
no CSS at all: the result is `Except.error`, which carries no output. -/
theorem C2_analyzer_errors_abort_compile (fs : FS) (path : String) (fuel : Nat)
    (content : String)
    (h1 : fsRead fs path = some content)
    (h2 : (analyzeContent content.data).filter (fun i => i.severity = "error") ≠ []) :
    processFile fs path fuel = .error ("Syntax errors found:\n" ++
      joinNLStr (((analyzeContent content.data).filter
        (fun i => i.severity = "error")).map fmtIssue)) := by
  simp only [processFile, h1]
  rw [if_pos h2]

/-- C2 witness: the one-character file that is an unmatched closing brace. -/
theorem C2_analyzer_errors_witness :
    processFile fs2C2 "p/f.axcss" 10 =
      .error "Syntax errors found:\nUnmatched closing \x27\x7d\x27 at line 1, column 1. (line 1:1)" :=
  (C2_analyzer_errors_abort_compile fs2C2 "p/f.axcss" 10 "\x7d" rfl (by decide)).trans (by rfl)

/-- C3: corrected.  A file in which neither the component-header pattern nor
the instance-header pattern matches anywhere compiles to its own text
unchanged except for trimming; but the instance pattern also matches plain
CSS selectors such as `div.foo`, so such rule blocks are stripped (see the
counterexample), and the original round-trip claim fails. -/
theorem C3_plain_css_preserved_when_no_headers (content : Str)
    (h1 : findCompHeader content = none) (h2 : findInstHeader content = none) :
    processContentString content = .ok (jsTrim content, []) := by
  have hp : parseComponentDefinition content = [] := by
    rw [parseComponentDefinition]
    simp [parseCompLoop, h1]
  have hi : parseComponentInstances content = [] := by
    rw [parseComponentInstances]
    simp [parseInstLoop, h2]
  have hcr : compRanges content = [] := by
    rw [compRanges]
    simp [compRangesLoop, h1]
  have hir : instRanges content = [] := by
    rw [instRanges]
    simp [instRangesLoop, h2]
  have hs : stripComponentAndInstanceBlocks content = content := by
    rw [stripComponentAndInstanceBlocks]
    simp [hcr, hir]
  have hnil : jsTrim ([] : Str) = [] := rfl
  rw [processContentString]
  simp only [hp, hi, hs]
  simp only [pcsLoop, List.foldl_nil]
  by_cases he : jsTrim content = []
  · simp [he, hnil, joinWith]
  · simp [he, hnil, joinWith]

/-- C3 witness: plain CSS with no `.`-selector and no `component` keyword is
returned exactly as written. -/
theorem C3_plain_css_witness :
    processContentString "div \x7b color: red; \x7d".data =
      .ok (jsTrim "div \x7b color: red; \x7d".data, []) :=
  C3_plain_css_preserved_when_no_headers "div \x7b color: red; \x7d".data
    (by decide) (by decide)

/-- C3 counterexample: the plain-CSS rule `div.foo { color: red; }` matches
the instance-header pattern, so the whole block is stripped: the output is
empty and the rule block present in the input was dropped. -/
theorem C3_instance_like_plain_css_dropped :
    processContentString "div.foo \x7b color: red; \x7d".data =
      .ok ([], [⟨"warning",
        "No component in \x22div\x22 this is an simple css syntax it doesn\x27t have axcss syntax"⟩]) := by
  rfl

/-- C4: corrected.  Normalized output indeed ends in exactly one trailing
newline (the character before it, when any, is never whitespace); but the
final normalization pass strips every comment, including the
`/* Instance: Component.instance */` markers added per generated instance, so
the returned CSS does not contain the labels (see the counterexample). -/
theorem C4_normalized_output_single_trailing_newline (css : Str) :
    normalizeCss css = [] ∨
      ∃ t : Str, normalizeCss css = t ++ ['\n'] ∧
        ∀ c : Char, t.getLast? = some c → isWs c = false := by
  have key : ∀ (l : Str), (if jsTrim l = [] then ([] : Str) else jsTrim l ++ "\n".data) = [] ∨
      ∃ t : Str, (if jsTrim l = [] then ([] : Str) else jsTrim l ++ "\n".data) = t ++ ['\n'] ∧
        ∀ c : Char, t.getLast? = some c → isWs c = false := by
    intro l
    by_cases ht : jsTrim l = []
    · left; simp [ht]
    · right
      refine ⟨jsTrim l, by simp [ht], fun c hc => jsTrim_getLast_not_ws hc⟩
  by_cases h0 : css = []
  · left; simp [normalizeCss, h0]
  · unfold normalizeCss
    rw [if_neg h0]
    exact key _

/-- C4 counterexample: a successful compile with one generated instance whose
output carries no `/* Instance: ... */` label — the marker the instance loop
added was removed by the final `normalizeCss`. -/
theorem C4_instance_marker_stripped :
    processFile fsC4 "p/b.axcss" 10 =
      .ok (".plain \x7b a: b; \x7d\n\n.small .root \x7b\n  width: 5px;\n\x7d\n", []) ∧
    containsSub ".plain \x7b a: b; \x7d\n\n.small .root \x7b\n  width: 5px;\n\x7d\n".data
      "/* Instance:".data = false := by
  exact ⟨rfl, rfl⟩

/-- C5: corrected.  An `@import` whose resolved absolute path is already in
the visited set is replaced with empty text and skipped — but silently: the
recursive call keeps the warning list unchanged, no warning is pushed (the
counterexample shows a full cyclic compile ending with an empty log). -/
theorem C5_visited_import_replaced_silently (fs : FS) (fuel : Nat) (baseDir : String)
    (result : Str) (lastIndex : Nat) (visited : List String) (warns : List LogEntry)
    (rel : Nat) (rawPath : Str) (mlen : Nat)
    (hf : findImport (result.drop lastIndex) = some (rel, rawPath, mlen))
    (hv : resolvePath baseDir (String.mk (importPathOf rawPath)) ∈ visited) :
    resolveImportsFuel fs (fuel + 1) baseDir result lastIndex visited warns =
      resolveImportsFuel fs fuel baseDir
        (replaceFirstSubst result ((result.drop (lastIndex + rel)).take mlen) [])
        (lastIndex + rel + mlen) visited warns := by
  simp only [importPathOf] at hv
  simp only [resolveImportsFuel, hf]
  rw [if_pos hv]

/-- C5 witness: one visited-hit step on a concrete directive. -/
theorem C5_visited_import_witness :
    resolveImportsFuel [] (3 + 1) "d" "@import \x22B\x22;\nrest".data 0 ["d/B.axcss"] [] =
      resolveImportsFuel [] 3 "d"
        (replaceFirstSubst "@import \x22B\x22;\nrest".data
          (("@import \x22B\x22;\nrest".data.drop (0 + 0)).take 12) [])
        (0 + 0 + 12) ["d/B.axcss"] [] :=
  C5_visited_import_replaced_silently [] 3 "d" "@import \x22B\x22;\nrest".data 0
    ["d/B.axcss"] [] 0 "B".data 12 (by rfl) (by decide)

/-- C5 counterexample: the cyclic pair `A ↔ B` terminates and compiles, but
with an empty warning list — the cycle hit produces no warning — and `A`'s
definitions are pulled in twice (once more via `B`), generating the instance
twice. -/
theorem C5_cycle_terminates_without_warning :
    resolveImportsFuel fs5 20 "d" cssA5.data 0 [] [] =
      some ("\ncomponent CA() \x7b .x \x7b color: red; \x7d \x7d\nCA.i \x7b \x7d\ncomponent CB() \x7b .y \x7b color: blue; \x7d \x7d\ncomponent CA() \x7b .x \x7b color: red; \x7d \x7d\nCA.i \x7b \x7d".data,
        ["d/B.axcss", "d/A.axcss"], []) ∧
    processFile fs5 "d/A.axcss" 20 =
      .ok (".i .x \x7b\n  color: red;\n\x7d\n\n.i-1 .x \x7b\n  color: red;\n\x7d\n", []) := by
  exact ⟨rfl, rfl⟩

/-- C6: the claimed invariant fails in the code.  With the local `Btn`
(blue) written before the `@import` that pulls in another `Btn` (red), the
imported definition is appended later in the resolved text, so the later
`Map.set` wins and every instance uses the imported body; writing the import
first makes the local definition win instead.  Which definition is used
depends on the textual position of the `@import`, not on locality. -/
theorem C6_imported_definition_overrides_local :
    processFile fsC6 "d/M.axcss" 10 = .ok (".b .r \x7b\n  color: red;\n\x7d\n", []) ∧
    processFile fsC6i "d/N.axcss" 10 = .ok (".b .r \x7b\n  color: blue;\n\x7d\n", []) := by
  exact ⟨rfl, rfl⟩

/-- C7: confirmed.  Evaluating a `when $v OP lit { blk }` construct compares
the quote-stripped literal against `String(environment[v])` by exact string
equality (`==`) or inequality (`!=`) — no numeric or other coercion exists in
the embedding — and the construct is replaced in place by the block's inner
content when the condition holds and by nothing at all when it fails. -/
theorem C7_when_condition_string_comparison (props : List (Str × Str)) (v op lit blk : Str)
    (hv0 : v ≠ []) (hv : ∀ ch ∈ v, isIdentChar ch = true)
    (hop : op = "==".data ∨ op = "!=".data)
    (hl0 : lit ≠ []) (hl : ∀ ch ∈ lit, (!(isWs ch) && decide (ch ≠ lbrace)) = true)
    (hblk : isBalancedFrom 0 blk = true) :
    processWhenConditions (whenConstruct v op lit blk) props =
      if (jsShow (mapGet props v) = stripQuotes lit) ↔ (op = "==".data) then blk else [] := by
  have hf := findWhenHeader_construct v op lit blk hv0 hv hop hl0 hl
  have hlws : ∀ ch ∈ lit, isWs ch = false := by
    intro ch hm
    have h := hl ch hm
    simp only [Bool.and_eq_true, Bool.not_eq_true'] at h
    exact h.1
  have htrim : jsTrim lit = lit := jsTrim_no_ws hlws
  have hhdr : ('w' :: 'h' :: 'e' :: 'n' :: ' ' :: '$' ::
      (v ++ ' ' :: (op ++ ' ' :: (lit ++ [' '])))).length = 11 + v.length + lit.length := by
    rcases hop with rfl | rfl
    all_goals simp
    all_goals omega
  have hdrop : (whenConstruct v op lit blk).drop (0 + (11 + v.length + lit.length)) =
      lbrace :: (blk ++ [rbrace]) := by
    rw [whenConstruct_split, Nat.zero_add, ← hhdr, List.drop_left]
  have hsplit : splitAtChar lbrace (lbrace :: (blk ++ [rbrace])) =
      some ([], lbrace :: (blk ++ [rbrace])) := by
    simp [splitAtChar, idxOf]
  have hext : extractBlockHead (lbrace :: (blk ++ [rbrace])) = some (blk, []) := by
    have h2 := findClose_of_balanced (d := 0) [] hblk
    simp only [extractBlockHead, if_pos rfl, h2]
    rw [List.take_left]
    have h3 : (blk ++ [rbrace]).drop (blk.length + 1) = [] := drop_append_cons blk rbrace []
    rw [h3]
    simp
  simp only [processWhenConditions]
  generalize (whenConstruct v op lit blk).length = N
  simp only [whenLoop, hf, hdrop, hsplit, hext, List.take_zero, htrim, whenLoop_nil,
    List.append_nil, List.nil_append]
  rcases hop with rfl | rfl
  · by_cases hc : jsShow (mapGet props v) = stripQuotes lit
    · simp [hc]
    · simp [hc]
  · by_cases hc : jsShow (mapGet props v) = stripQuotes lit
    · simp [hc]
    · simp [hc]

/-- C7 witness: `when $m == x { a: b; }` with `m` bound to `x`. -/
theorem C7_when_condition_witness :
    processWhenConditions (whenConstruct "m".data "==".data "x".data " a: b; ".data)
        [("m".data, "x".data)] =
      if (jsShow (mapGet [("m".data, "x".data)] "m".data) = stripQuotes "x".data)
          ↔ ("==".data = "==".data) then " a: b; ".data else [] :=
  C7_when_condition_string_comparison [("m".data, "x".data)] "m".data "==".data "x".data
    " a: b; ".data (by decide) (by decide) (Or.inl rfl) (by decide) (by decide) (by decide)

/-- C8: confirmed.  Substitution replaces a declared `$name` only at an
identifier boundary (`$colorvar` is not `$color` + `var`, second conjunct),
and after the per-variable passes every remaining `$identifier` token is
deleted, so the result never contains a `$name` token (first conjunct, stated
for every body and environment; third conjunct shows an undeclared token
deleted wholesale). -/
theorem C8_variable_substitution_boundary_and_cleanup :
    (∀ (body : Str) (mergedProps : List (Str × Str)),
      hasVarToken (processVariables body mergedProps) = false) ∧
    processVariables "$color var $colorvar x".data [("color".data, "red".data)]
      = "red var  x".data ∧
    processVariables "$colorvar".data [("color".data, "red".data)] = [] := by
  refine ⟨fun body mergedProps => ?_, rfl, rfl⟩
  simp only [processVariables]
  exact hasVarToken_stripVarTokens _ _

/-- C9: confirmed.  Body capture is balanced-brace extraction: for any prefix,
brace-balanced inner text and remainder, `extractBlock` at the opening brace
returns exactly the inner text (nested rule blocks never truncate it), and a
malformed header (here one whose block never closes) is skipped without
aborting the scan: the well-formed definition before it is still parsed with
its full nested body. -/
theorem C9_balanced_extraction_and_tolerant_scan (pre inner rest : Str)
    (h : isBalancedFrom 0 inner = true) :
    extractBlock (pre ++ lbrace :: (inner ++ rbrace :: rest)) pre.length =
      (some inner, pre.length + inner.length + 2) ∧
    parseComponentDefinition strC9 = [⟨"A".data, [], ".x \x7b c: d; \x7d".data⟩] :=
  ⟨extractBlock_balanced pre inner rest h, by rfl⟩

/-- C9 witness: extraction over a body containing a nested block. -/
theorem C9_balanced_extraction_witness :
    extractBlock ("ab".data ++ lbrace :: (".x \x7b c: d; \x7d ".data ++ rbrace :: "tail".data))
        "ab".data.length =
      (some ".x \x7b c: d; \x7d ".data,
        "ab".data.length + ".x \x7b c: d; \x7d ".data.length + 2) ∧
    parseComponentDefinition strC9 = [⟨"A".data, [], ".x \x7b c: d; \x7d".data⟩] :=
  C9_balanced_extraction_and_tolerant_scan "ab".data ".x \x7b c: d; \x7d ".data "tail".data
    (by decide)

/-- C10: corrected.  For every component, instance and declared parameter
with neither an instance value nor a default, the merge itself is never
fatal: the parameter is absent from the merged environment, so
`String(environment[param])` is `undefined` (what any `when $param OP lit`
condition compares against), no `$identifier` token survives substitution,
and whenever `buildAst` accepts the transformed body the instance returns CSS
with the merge error only logged.  The unqualified no-throw claim fails: see
the counterexample, where another parameter\x27s value makes `buildAst` throw. -/
theorem C10_missing_param_merge_not_fatal
    (comp : ComponentDef) (inst : InstanceReq) (cls : Str) (p : Param)
    (hmem : p ∈ comp.params)
    (hnodup : (comp.params.map Param.name).Nodup)
    (hdef : p.defaultValue = none)
    (hprop : mapGet inst.props p.name = none)
    (hast : ∃ a, buildAst (processVariables
      (processWhenConditions comp.body
        (buildMergedProps comp.params inst.props comp.name inst.instanceName).1)
      (buildMergedProps comp.params inst.props comp.name inst.instanceName).1) = .ok a) :
    (∃ css, processComponentInstance comp inst cls =
      .ok (css, (buildMergedProps comp.params inst.props comp.name inst.instanceName).2)) ∧
    jsShow (mapGet (buildMergedProps comp.params inst.props comp.name inst.instanceName).1
      p.name) = "undefined".data ∧
    hasVarToken (processVariables
      (processWhenConditions comp.body
        (buildMergedProps comp.params inst.props comp.name inst.instanceName).1)
      (buildMergedProps comp.params inst.props comp.name inst.instanceName).1) = false ∧
    (⟨"error", "Default value not defined for $" ++ String.mk p.name ++ " in instance "
      ++ String.mk comp.name ++ "." ++ String.mk inst.instanceName⟩ : LogEntry)
      ∈ (buildMergedProps comp.params inst.props comp.name inst.instanceName).2 := by
  obtain ⟨a, ha⟩ := hast
  have hmiss : mapGet (buildMergedProps comp.params inst.props comp.name
        inst.instanceName).1 p.name = none ∧
      (⟨"error", "Default value not defined for $" ++ String.mk p.name ++ " in instance "
        ++ String.mk comp.name ++ "." ++ String.mk inst.instanceName⟩ : LogEntry)
        ∈ (buildMergedProps comp.params inst.props comp.name inst.instanceName).2 :=
    buildMergedProps_missing hmem hnodup hdef hprop
  refine ⟨⟨jsTrim (generateCssFromAst a cls), ?_⟩, ?_, ?_, hmiss.2⟩
  · simp only [processComponentInstance]
    rw [ha]
  · rw [hmiss.1]
    rfl
  · simp only [processVariables]
    exact hasVarToken_stripVarTokens _ _

/-- C10 witness: the `K($m)` fixture, whose transformed body `buildAst`
accepts: the instance emits CSS, `$m` reads back as `undefined`, no variable
token survives, and the merge error is logged. -/
theorem C10_missing_param_merge_witness :
    (∃ css, processComponentInstance compK10 instK10 "j".data =
      .ok (css, (buildMergedProps compK10.params instK10.props compK10.name
        instK10.instanceName).2)) ∧
    jsShow (mapGet (buildMergedProps compK10.params instK10.props compK10.name
      instK10.instanceName).1 (Param.mk "m".data none).name) = "undefined".data ∧
    hasVarToken (processVariables
      (processWhenConditions compK10.body
        (buildMergedProps compK10.params instK10.props compK10.name instK10.instanceName).1)
      (buildMergedProps compK10.params instK10.props compK10.name instK10.instanceName).1)
      = false ∧
    (⟨"error", "Default value not defined for $"
        ++ String.mk (Param.mk "m".data none).name ++ " in instance "
        ++ String.mk compK10.name ++ "." ++ String.mk instK10.instanceName⟩ : LogEntry)
      ∈ (buildMergedProps compK10.params instK10.props compK10.name
        instK10.instanceName).2 :=
  C10_missing_param_merge_not_fatal compK10 instK10 "j".data (Param.mk "m".data none)
    (by decide) (by decide) rfl rfl ⟨_, by rfl⟩

/-- C10 counterexample: `$m` has neither value nor default (the claim\x27s
hypothesis holds), yet `processComponentInstance` still throws: `$v`\x27s
instance value `a \x7b b` leaves the substituted body brace-unbalanced and
`buildAst(null)` raises the TypeError.  The same failure is reachable from
plain source text through `processContentString`. -/
theorem C10_unbalanced_value_still_throws :
    mapGet instC10x.props "m".data = none ∧
    (⟨"m".data, none⟩ : Param) ∈ compC10x.params ∧
    processComponentInstance compC10x instC10x "i".data = .error jsNullLengthMsg ∧
    processContentString srcC10x = .error jsNullLengthMsg := by
  exact ⟨rfl, by decide, rfl, rfl⟩

end Axcss
